import Mathlib

/-!
# A verification development for the rust-monster genetic-algorithm core

Shallow embedding of the population / selector / statistics subsystem.
`f32` scores are modelled as exact rationals (`ℚ`): every claim under
scrutiny is about comparisons, sums, divisions and orderings of scores,
all of which the source computes with the same expressions modelled here.
`Vec::sort_by` is a stable sort by a total preorder; a stable sort's
output is uniquely determined by the comparator, so it is modelled by
`List.insertionSort` (also stable) with the same comparator.
Out-of-range indexing, which panics in the source, is modelled by
`List.getD` with a default element.
-/

namespace RustMonster

/-- An individual as the selectors and statistics see it: a raw (objective)
score and a fitness (scaled) score.  Mirrors the `GAIndividual`/`GASolution`
capability set; `PartialEq` on the test individual compares both fields,
which `DecidableEq` mirrors. -/
structure GAIndividual where
  raw : ℚ
  fitness : ℚ
deriving DecidableEq, Repr

instance : Inhabited GAIndividual := ⟨⟨0, 0⟩⟩

/-- `GAPopulationSortBasis` from `ga_population.rs`. -/
inductive GAPopulationSortBasis
  | Raw
  | Fitness
deriving DecidableEq, Repr

/-- `GAPopulationSortOrder` from `ga_population.rs`. -/
inductive GAPopulationSortOrder
  | LowIsBest
  | HighIsBest
deriving DecidableEq, Repr

/-- `GAPopulationStats` (`ga_population.rs`).  The two `std_dev` fields are
not stored: the source sets `std_dev = var.sqrt()`, and the square root of a
rational is irrational in general, so `std_dev` is rendered at the theorem
level as `Real.sqrt` of the variance field. -/
structure GAPopulationStats where
  raw_sum : ℚ
  raw_avg : ℚ
  raw_max : ℚ
  raw_min : ℚ
  raw_var : ℚ
  fitness_sum : ℚ
  fitness_avg : ℚ
  fitness_max : ℚ
  fitness_min : ℚ
  fitness_var : ℚ
deriving DecidableEq, Repr

/-- Accumulator of the first statistics pass (sum / max / min for both
axes).  The `f32::NEG_INFINITY` / `f32::INFINITY` seeds of the source are
modelled by `⊥ : WithBot ℚ` and `⊤ : WithTop ℚ`. -/
structure StatsAcc where
  raw_sum : ℚ
  raw_max : WithBot ℚ
  raw_min : WithTop ℚ
  fitness_sum : ℚ
  fitness_max : WithBot ℚ
  fitness_min : WithTop ℚ

/-- First pass of `GAPopulation::statistics`: one fold accumulating
sum/max/min of raw and fitness scores. -/
def statsPass1 (l : List GAIndividual) : StatsAcc :=
  l.foldl
    (fun stats ind =>
      { raw_sum := stats.raw_sum + ind.raw
        raw_max := max stats.raw_max (ind.raw : WithBot ℚ)
        raw_min := min stats.raw_min (ind.raw : WithTop ℚ)
        fitness_sum := stats.fitness_sum + ind.fitness
        fitness_max := max stats.fitness_max (ind.fitness : WithBot ℚ)
        fitness_min := min stats.fitness_min (ind.fitness : WithTop ℚ) })
    ⟨0, ⊥, ⊤, 0, ⊥, ⊤⟩

/-- The statistics computation of `GAPopulation::statistics` for a non-empty
population: first pass for sum/max/min, averages, then a second pass for the
variance (divisor `size - 1`, skipped when `size ≤ 1`, leaving the default
variance `0`). -/
def statisticsCompute (l : List GAIndividual) : GAPopulationStats :=
  let acc := statsPass1 l
  let size := l.length
  let raw_avg := acc.raw_sum / (size : ℚ)
  let fitness_avg := acc.fitness_sum / (size : ℚ)
  let raw_var :=
    if 1 < size then
      (l.foldl (fun v ind => v + (ind.raw - raw_avg) ^ 2) 0) / ((size - 1 : ℕ) : ℚ)
    else 0
  let fitness_var :=
    if 1 < size then
      (l.foldl (fun v ind => v + (ind.fitness - fitness_avg) ^ 2) 0) / ((size - 1 : ℕ) : ℚ)
    else 0
  { raw_sum := acc.raw_sum
    raw_avg := raw_avg
    raw_max := acc.raw_max.unbot' 0
    raw_min := acc.raw_min.untop' 0
    raw_var := raw_var
    fitness_sum := acc.fitness_sum
    fitness_avg := fitness_avg
    fitness_max := acc.fitness_max.unbot' 0
    fitness_min := acc.fitness_min.untop' 0
    fitness_var := fitness_var }

/-- `GAPopulation` (`ga_population.rs`): the backing collection, the sort
order, the two index permutations with their validity flags, and the
memoized statistics. -/
structure GAPopulation where
  population : List GAIndividual
  sort_order : GAPopulationSortOrder
  population_order_raw : List ℕ
  is_raw_sorted : Bool
  population_order_fitness : List ℕ
  is_fitness_sorted : Bool
  statistics : Option GAPopulationStats
deriving DecidableEq, Repr

/-- `GAPopulation::new`. -/
def GAPopulation.new (p : List GAIndividual) (order : GAPopulationSortOrder) : GAPopulation :=
  { population := p
    sort_order := order
    population_order_raw := []
    is_raw_sorted := false
    population_order_fitness := []
    is_fitness_sorted := false
    statistics := none }

/-- `GAPopulation::size`. -/
def GAPopulation.size (pop : GAPopulation) : ℕ :=
  pop.population.length

/-- `GAPopulation::order`. -/
def GAPopulation.order (pop : GAPopulation) : GAPopulationSortOrder :=
  pop.sort_order

/-- The index ordering computed by `GAPopulation::sort_int`: indices
`0..len` sorted by the given key, ascending for `LowIsBest` and descending
for `HighIsBest` (the source flips the comparator's operands). -/
def sortIdx (l : List GAIndividual) (key : GAIndividual → ℚ)
    (ord : GAPopulationSortOrder) : List ℕ :=
  let idx := List.range l.length
  match ord with
  | .LowIsBest =>
    List.insertionSort (fun i j => key (l.getD i default) ≤ key (l.getD j default)) idx
  | .HighIsBest =>
    List.insertionSort (fun i j => key (l.getD j default) ≤ key (l.getD i default)) idx

/-- `GAPopulation::sort_int`. -/
def GAPopulation.sort_int (pop : GAPopulation) (force : Bool)
    (sort_basis : GAPopulationSortBasis) : GAPopulation :=
  match sort_basis with
  | .Raw =>
    if !pop.is_raw_sorted || force then
      { pop with
        population_order_raw := sortIdx pop.population (fun ind => ind.raw) pop.sort_order
        is_raw_sorted := true }
    else pop
  | .Fitness =>
    if !pop.is_fitness_sorted || force then
      { pop with
        population_order_fitness := sortIdx pop.population (fun ind => ind.fitness) pop.sort_order
        is_fitness_sorted := true }
    else pop

/-- `GAPopulation::sort`. -/
def GAPopulation.sort (pop : GAPopulation) : GAPopulation :=
  (pop.sort_int false .Fitness).sort_int false .Raw

/-- `GAPopulation::force_sort`. -/
def GAPopulation.force_sort (pop : GAPopulation) : GAPopulation :=
  (pop.sort_int true .Fitness).sort_int true .Raw

/-- `GAPopulation::set_order_and_sort`. -/
def GAPopulation.set_order_and_sort (pop : GAPopulation)
    (order : GAPopulationSortOrder) : GAPopulation :=
  if pop.sort_order ≠ order then
    ({ pop with
       sort_order := order
       is_raw_sorted := false
       is_fitness_sorted := false }).sort
  else pop

/-- `GAPopulation::individual`: the i-th best element under the requested
basis.  Out-of-range access (a panic in the source) yields the default. -/
def GAPopulation.individual (pop : GAPopulation) (i : ℕ)
    (sort_basis : GAPopulationSortBasis) : GAIndividual :=
  match sort_basis with
  | .Raw => pop.population.getD (pop.population_order_raw.getD i 0) default
  | .Fitness => pop.population.getD (pop.population_order_fitness.getD i 0) default

/-- `GAPopulation::best_by_raw_score`. -/
def GAPopulation.best_by_raw_score (pop : GAPopulation) : GAIndividual :=
  pop.individual 0 .Raw

/-- `GAPopulation::kth_best_by_raw_score`. -/
def GAPopulation.kth_best_by_raw_score (pop : GAPopulation) (k : ℕ) : GAIndividual :=
  pop.individual k .Raw

/-- `GAPopulation::worst_by_raw_score`. -/
def GAPopulation.worst_by_raw_score (pop : GAPopulation) : GAIndividual :=
  pop.individual (pop.size - 1) .Raw

/-- `GAPopulation::best_by_fitness_score`. -/
def GAPopulation.best_by_fitness_score (pop : GAPopulation) : GAIndividual :=
  pop.individual 0 .Fitness

/-- `GAPopulation::worst_by_fitness_score`. -/
def GAPopulation.worst_by_fitness_score (pop : GAPopulation) : GAIndividual :=
  pop.individual (pop.size - 1) .Fitness

/-- `GAPopulation::worst` (fitness basis). -/
def GAPopulation.worst (pop : GAPopulation) : GAIndividual :=
  pop.individual (pop.size - 1) .Fitness

/-- Writing through `GAPopulation::worst_by_raw_score_mut` (the
`clone_from` in `update_best`): replace the population slot addressed by
the last raw-order index. -/
def GAPopulation.setWorstByRawScore (pop : GAPopulation) (x : GAIndividual) : GAPopulation :=
  { pop with
    population := pop.population.set (pop.population_order_raw.getD (pop.size - 1) 0) x }

/-- Writing through `GAPopulation::best_by_raw_score_mut`: replace the
population slot addressed by the first raw-order index. -/
def GAPopulation.setBestByRawScore (pop : GAPopulation) (x : GAIndividual) : GAPopulation :=
  { pop with
    population := pop.population.set (pop.population_order_raw.getD 0 0) x }

/-- `GAPopulation::swap_individual`. -/
def GAPopulation.swap_individual (pop : GAPopulation) (new_individual : GAIndividual) :
    GAPopulation :=
  let worst := pop.worst
  let should_swap : Bool :=
    match pop.sort_order with
    | .LowIsBest => new_individual.fitness < worst.fitness
    | .HighIsBest => new_individual.fitness > worst.fitness
  let l := pop.population.length
  if should_swap then
    { pop with
      population := pop.population.set (pop.population_order_fitness.getD (l - 1) 0) new_individual
      is_raw_sorted := false
      is_fitness_sorted := false }
  else pop

/-- The sequence denoted by `GAPopulation::raw_score_iterator`. -/
def GAPopulation.rawScoreList (pop : GAPopulation) : List GAIndividual :=
  (List.range pop.size).map (fun i => pop.individual i .Raw)

/-- The sequence denoted by `GAPopulation::fitness_score_iterator`. -/
def GAPopulation.fitnessScoreList (pop : GAPopulation) : List GAIndividual :=
  (List.range pop.size).map (fun i => pop.individual i .Fitness)

/-- `GAPopulation::statistics` (memoized; `None` for an empty population).
The method mutates `self` to store the memo, so the embedding returns the
result together with the updated population. -/
def GAPopulation.statistics' (pop : GAPopulation) :
    Option GAPopulationStats × GAPopulation :=
  match pop.statistics with
  | some s => (some s, pop)
  | none =>
    if pop.size = 0 then (none, pop)
    else
      let stats := statisticsCompute pop.population
      (some stats, { pop with statistics := some stats })

/-- `GAPopulation::reset_statistics`. -/
def GAPopulation.reset_statistics (pop : GAPopulation) : GAPopulation :=
  { pop with statistics := none }

/-! ## Selectors (`ga_selectors.rs`)

The score view (`GAScoreTypeBasedSelection`) has exactly two implementors,
raw-score based and scaled/fitness-score based, so it is modelled as a
closed enumeration.  The random stream is threaded explicitly: a roulette
draw consumes one uniform float in `[0,1)` (a cutoff), a rank draw consumes
one `gen_range(0, best_count)` integer. -/

/-- The closed set of `GAScoreTypeBasedSelection` implementors. -/
inductive GAScoreTypeBasedSelection
  | Raw
  | Scaled
deriving DecidableEq, Repr

/-- `GAScoreTypeBasedSelection::score`. -/
def GAScoreTypeBasedSelection.score :
    GAScoreTypeBasedSelection → GAIndividual → ℚ
  | .Raw, ind => ind.raw
  | .Scaled, ind => ind.fitness

/-- `GAScoreTypeBasedSelection::population_sort_basis`. -/
def GAScoreTypeBasedSelection.population_sort_basis :
    GAScoreTypeBasedSelection → GAPopulationSortBasis
  | .Raw => .Raw
  | .Scaled => .Fitness

/-- `GAScoreTypeBasedSelection::max_score`: the view-score of the
best-ranked individual under the view's basis. -/
def GAScoreTypeBasedSelection.max_score :
    GAScoreTypeBasedSelection → GAPopulation → ℚ
  | .Raw, population => GAScoreTypeBasedSelection.Raw.score population.best_by_raw_score
  | .Scaled, population => GAScoreTypeBasedSelection.Scaled.score population.best_by_fitness_score

/-- `GAScoreTypeBasedSelection::min_score`: the view-score of the
worst-ranked individual under the view's basis. -/
def GAScoreTypeBasedSelection.min_score :
    GAScoreTypeBasedSelection → GAPopulation → ℚ
  | .Raw, population => GAScoreTypeBasedSelection.Raw.score population.worst_by_raw_score
  | .Scaled, population => GAScoreTypeBasedSelection.Scaled.score population.worst_by_fitness_score

/-- The `best_count` loop of `GARankSelector::select`: starting at rank 1,
walk the ranked list while the view-score still equals `best_score`; the
returned value is the rank at which the walk stops, which is exactly the
final `best_count` (it starts at 1 and is incremented once per equal rank).
-/
def rankBestCountAux (v : GAScoreTypeBasedSelection) (population : GAPopulation)
    (best_score : ℚ) : ℕ → ℕ → ℕ
  | 0, i => i
  | fuel + 1, i =>
    if i < population.size ∧
        v.score (population.individual i v.population_sort_basis) = best_score then
      rankBestCountAux v population best_score fuel (i + 1)
    else i

/-- Entry point of the `best_count` walk.  The loop body requires
`i < population.size`, so `population.size - i` bounds the iteration count;
with that fuel the fuel-out arm coincides with the loop condition turning
false, and the recursion is structural (kernel-reducible). -/
def rankBestCount (v : GAScoreTypeBasedSelection) (population : GAPopulation)
    (best_score : ℚ) (i : ℕ) : ℕ :=
  rankBestCountAux v population best_score (population.size - i) i

/-- `GARankSelector::select`.  `genRange` is the random stream's
`gen_range` operation (contract: `genRange low high ∈ [low, high)`). -/
def GARankSelector.select (v : GAScoreTypeBasedSelection)
    (population : GAPopulation) (genRange : ℕ → ℕ → ℕ) : GAIndividual :=
  let population_sort_basis := v.population_sort_basis
  let best_score := v.max_score population
  let best_count := rankBestCount v population best_score 1
  population.individual (genRange 0 best_count) population_sort_basis

/-- `GAUniformSelector::select` (draws a uniform index in `[0, size)`). -/
def GAUniformSelector.select (population : GAPopulation)
    (genRange : ℕ → ℕ → ℕ) : GAIndividual :=
  population.individual (genRange 0 population.size) .Raw

/-- `Vec::resize(n, 0.0)` on the wheel vector. -/
def listResize (l : List ℚ) (n : ℕ) : List ℚ :=
  l.take n ++ List.replicate (n - l.length) 0

/-- `GARouletteWheelSelector` internal state. -/
structure GARouletteWheelSelector where
  score_selection : GAScoreTypeBasedSelection
  wheel_proportions : List ℚ
deriving DecidableEq, Repr

/-- `GARouletteWheelSelector::new`. -/
def GARouletteWheelSelector.new (s : GAScoreTypeBasedSelection) (p_size : ℕ) :
    GARouletteWheelSelector :=
  { score_selection := s, wheel_proportions := List.replicate p_size 0 }

/-- `GARouletteWheelSelector::update`.  Resize the wheel if the population
size changed; sort; then three cases on `max_score`/`min_score`:
uniform wheel when they are equal, a normalized prefix sum of the
(possibly reflected) view-scores when the scores are single-signed, and no
wheel write at all otherwise (the documented open issue).  In the prefix
sum, slot `i` holds `inc 0 + … + inc i`, which is the in-place recurrence
`wheel[i] = inc i + wheel[i-1]` of the source; each slot is then divided by
the pre-normalization value of the last slot, i.e. the total.  `update`
sorts the population through an `&mut` borrow, so the sorted population is
returned alongside the selector. -/
def GARouletteWheelSelector.update (sel : GARouletteWheelSelector)
    (population : GAPopulation) : GARouletteWheelSelector × GAPopulation :=
  let wheel :=
    if population.size ≠ sel.wheel_proportions.length then
      listResize sel.wheel_proportions population.size
    else sel.wheel_proportions
  let population := population.sort
  let wheel_slots := wheel.length
  let max_score := sel.score_selection.max_score population
  let min_score := sel.score_selection.min_score population
  if max_score = min_score then
    ({ sel with
       wheel_proportions :=
         (List.range wheel_slots).map (fun i => ((i + 1 : ℕ) : ℚ) / (wheel_slots : ℚ)) },
     population)
  else if (max_score > 0 ∧ min_score ≥ 0) ∨ (max_score ≤ 0 ∧ min_score < 0) then
    let population_sort_basis := sel.score_selection.population_sort_basis
    let inc : ℕ → ℚ :=
      match population.order with
      | .HighIsBest => fun i =>
          sel.score_selection.score (population.individual i population_sort_basis)
      | .LowIsBest => fun i =>
          -(sel.score_selection.score (population.individual i population_sort_basis))
            + max_score + min_score
    let total := ((List.range wheel_slots).map inc).sum
    ({ sel with
       wheel_proportions :=
         (List.range wheel_slots).map
           (fun i => (((List.range (i + 1)).map inc).sum) / total) },
     population)
  else
    ({ sel with wheel_proportions := wheel }, population)

def wheelSearchAux (wheel : List ℚ) (cutoff : ℚ) : ℕ → ℕ → ℕ → ℕ
  | 0, lower, _ => lower
  | fuel + 1, lower, upper =>
    if lower < upper then
      let i := lower + (upper - lower) / 2
      if wheel.getD i 0 > cutoff then
        wheelSearchAux wheel cutoff fuel lower (i - 1)
      else
        wheelSearchAux wheel cutoff fuel (i + 1) upper
    else lower

/-- The binary-search loop of `GARouletteWheelSelector::select`.  The
source guards the `upper = i - 1` update with `if i > 0` (else `upper = 0`);
truncated subtraction on `ℕ` renders both arms as `i - 1`.  Each iteration
shrinks `upper - lower` by at least one, so `upper - lower` fuels a
structural rendering of the loop: when the fuel runs out the loop condition
`lower < upper` is false, so the fuel-out arm coincides with loop exit. -/
def wheelSearch (wheel : List ℚ) (cutoff : ℚ) (lower upper : ℕ) : ℕ :=
  wheelSearchAux wheel cutoff (upper - lower) lower upper

/-- `GARouletteWheelSelector::select`: one uniform cutoff in `[0,1)`,
binary search, clamp into `[0, wheel_slots-1]`, and return the individual
at that rank under the view's basis. -/
def GARouletteWheelSelector.select (sel : GARouletteWheelSelector)
    (population : GAPopulation) (cutoff : ℚ) : GAIndividual :=
  let wheel_slots := sel.wheel_proportions.length
  let lower := wheelSearch sel.wheel_proportions cutoff 0 (wheel_slots - 1)
  population.individual (min (wheel_slots - 1) lower)
    sel.score_selection.population_sort_basis

/-- `GATournamentSelector`: wraps a roulette-wheel instance over the same
view. -/
structure GATournamentSelector where
  score_selection : GAScoreTypeBasedSelection
  roulette_wheel_selector : GARouletteWheelSelector
deriving DecidableEq, Repr

/-- `GATournamentSelector::new`. -/
def GATournamentSelector.new (s : GAScoreTypeBasedSelection) (p_size : ℕ) :
    GATournamentSelector :=
  { score_selection := s
    roulette_wheel_selector := GARouletteWheelSelector.new s p_size }

/-- `GATournamentSelector::update` delegates to the inner wheel. -/
def GATournamentSelector.update (sel : GATournamentSelector)
    (population : GAPopulation) : GATournamentSelector × GAPopulation :=
  let r := sel.roulette_wheel_selector.update population
  ({ sel with roulette_wheel_selector := r.1 }, r.2)

/-- `GATournamentSelector::select`: two roulette draws (consuming cutoffs
`c1` then `c2` from the random stream), classify them as the low- and
high-scoring one (`individual1` wins the `≥` comparison on a tie), then
return the high one for `HighIsBest` and the low one for `LowIsBest`. -/
def GATournamentSelector.select (sel : GATournamentSelector)
    (population : GAPopulation) (c1 c2 : ℚ) : GAIndividual :=
  let individual1 := sel.roulette_wheel_selector.select population c1
  let individual2 := sel.roulette_wheel_selector.select population c2
  let p :=
    if sel.score_selection.score individual1 ≥ sel.score_selection.score individual2 then
      (individual2, individual1)
    else
      (individual1, individual2)
  let low_score_individual := p.1
  let high_score_individual := p.2
  match population.order with
  | .HighIsBest => high_score_individual
  | .LowIsBest => low_score_individual

/-! ## Statistics tracker and archive (`ga_statistics.rs`) -/

/-- The `cmp` closure of `GAStatistics::update_best`: compare two raw
scores, reading `Greater` as "left is better" under the populations'
order. -/
def cmpRaw (order : GAPopulationSortOrder) (l_raw r_raw : ℚ) : Ordering :=
  match order with
  | .HighIsBest => compare l_raw r_raw
  | .LowIsBest =>
    match compare l_raw r_raw with
    | .eq => .eq
    | .gt => .lt
    | .lt => .gt

/-- The inner `while` of `update_best`: advance `k` while the candidate is
worse than the archive's `k`-th best (the source checks the comparison
before `k < best_pop_size`, panicking at `k = best_pop_size`; that read is
modelled by the default individual). -/
def updateBestFindKAux (order : GAPopulationSortOrder) (cand_raw : ℚ)
    (best_pop : GAPopulation) (best_pop_size : ℕ) : ℕ → ℕ → ℕ
  | 0, k => k
  | fuel + 1, k =>
    if cmpRaw order cand_raw (best_pop.kth_best_by_raw_score k).raw = .lt ∧
        k < best_pop_size then
      updateBestFindKAux order cand_raw best_pop best_pop_size fuel (k + 1)
    else k

/-- Entry point of the `k` walk; the loop body requires
`k < best_pop_size`, so `best_pop_size - k` bounds the iteration count and
fuels a structural rendering (fuel-out coincides with loop exit). -/
def updateBestFindK (order : GAPopulationSortOrder) (cand_raw : ℚ)
    (best_pop : GAPopulation) (best_pop_size k : ℕ) : ℕ :=
  updateBestFindKAux order cand_raw best_pop best_pop_size (best_pop_size - k) k

/-- The inner `for j in k..best_pop_size` of `update_best`: skip when the
candidate is an archive member (no duplicate insertion), replace the
archive's worst-by-raw with the candidate and force a re-sort at the first
archive member the candidate beats, otherwise keep scanning. -/
def updateBestInnerAux (order : GAPopulationSortOrder) (pop_ith_best : GAIndividual)
    (best_pop : GAPopulation) (best_pop_size : ℕ) : ℕ → ℕ → GAPopulation
  | 0, _ => best_pop
  | fuel + 1, j =>
    if j < best_pop_size then
      let best_pop_jth_best := best_pop.kth_best_by_raw_score j
      if pop_ith_best = best_pop_jth_best then
        best_pop
      else if cmpRaw order pop_ith_best.raw best_pop_jth_best.raw = .gt then
        (best_pop.setWorstByRawScore pop_ith_best).force_sort
      else
        updateBestInnerAux order pop_ith_best best_pop best_pop_size fuel (j + 1)
    else best_pop

/-- Entry point of the `j` scan; the loop body requires
`j < best_pop_size`, so `best_pop_size - j` bounds the iteration count and
fuels a structural rendering (fuel-out coincides with loop exit). -/
def updateBestInner (order : GAPopulationSortOrder) (pop_ith_best : GAIndividual)
    (best_pop : GAPopulation) (best_pop_size j : ℕ) : GAPopulation :=
  updateBestInnerAux order pop_ith_best best_pop best_pop_size (best_pop_size - j) j

/-- The outer `while` of `update_best`: walk the incoming population from
best to worst while the candidate beats the archive's current worst. -/
def updateBestOuterAux (order : GAPopulationSortOrder) (pop : GAPopulation)
    (best_pop_size pop_size : ℕ) : ℕ → GAPopulation → ℕ → GAPopulation
  | 0, best_pop, _ => best_pop
  | fuel + 1, best_pop, i =>
    if i < pop_size ∧
        cmpRaw order (pop.kth_best_by_raw_score i).raw
          best_pop.worst_by_raw_score.raw = .gt then
      let pop_ith_best := pop.kth_best_by_raw_score i
      let k := updateBestFindK order pop_ith_best.raw best_pop best_pop_size 0
      updateBestOuterAux order pop best_pop_size pop_size fuel
        (updateBestInner order pop_ith_best best_pop best_pop_size k) (i + 1)
    else best_pop

/-- Entry point of the outer walk; the loop body requires `i < pop_size`,
so `pop_size - i` bounds the iteration count and fuels a structural
rendering (fuel-out coincides with loop exit). -/
def updateBestOuter (order : GAPopulationSortOrder) (pop : GAPopulation)
    (best_pop_size pop_size : ℕ) (best_pop : GAPopulation) (i : ℕ) : GAPopulation :=
  updateBestOuterAux order pop best_pop_size pop_size (pop_size - i) best_pop i

/-- `GAStatistics` (`ga_statistics.rs`). -/
structure GAStatistics where
  num_selections : ℕ
  num_crossovers : ℕ
  num_mutations : ℕ
  num_replacements : ℕ
  num_ind_evaluations : ℕ
  num_pop_evaluations : ℕ
  cur_generation : ℕ
  record_frequency : ℕ
  record_diversity : Bool
  alltime_best_pop : Option GAPopulation
  alltime_max_score : ℚ
  alltime_min_score : ℚ
  on_performance : ℚ
  off_max_performance : ℚ
  off_min_performance : ℚ
  hist_stats : List GAPopulationStats
deriving DecidableEq, Repr

/-- `GAStatistics::new`: note the all-time max/min scores start at `0.0`,
not at `∓∞`. -/
def GAStatistics.new : GAStatistics :=
  { num_selections := 0
    num_crossovers := 0
    num_mutations := 0
    num_replacements := 0
    num_ind_evaluations := 0
    num_pop_evaluations := 0
    cur_generation := 0
    record_frequency := 1
    record_diversity := false
    alltime_best_pop := none
    alltime_max_score := 0
    alltime_min_score := 0
    on_performance := 0
    off_max_performance := 0
    off_min_performance := 0
    hist_stats := [] }

/-- `GAStatistics::update_best`: the archive merge.  No-op unless the
archive exists and is non-empty; re-sort the archive under the incoming
order if it differs; dedicated strict-replacement for a 1-element archive;
the two-level scan otherwise; finally invalidate and recompute the
archive's statistics. -/
def GAStatistics.update_best (s : GAStatistics) (pop : GAPopulation) : GAStatistics :=
  match s.alltime_best_pop with
  | some best_pop =>
    if 0 < best_pop.size then
      let best_pop_size := best_pop.size
      let best_pop :=
        if pop.order ≠ best_pop.order then best_pop.set_order_and_sort pop.order
        else best_pop
      let order := best_pop.order
      let best_pop :=
        if best_pop_size = 1 then
          let best_pop_best_ind := best_pop.best_by_raw_score
          let pop_best_ind := pop.best_by_raw_score
          if (order = .LowIsBest ∧ pop_best_ind.raw < best_pop_best_ind.raw)
              ∨ (order = .HighIsBest ∧ pop_best_ind.raw > best_pop_best_ind.raw) then
            best_pop.setBestByRawScore pop_best_ind
          else best_pop
        else
          updateBestOuter order pop best_pop_size pop.size best_pop 0
      let best_pop := best_pop.reset_statistics
      { s with alltime_best_pop := some best_pop.statistics'.2 }
    else s
  | none => s

/-- `GAStatistics::set_best`: seed (or re-seed) generation #1. -/
def GAStatistics.set_best (s : GAStatistics) (pop : GAPopulation) : GAStatistics :=
  let r := pop.statistics'
  match r.1 with
  | none => s
  | some stats =>
    let cur_generation : ℕ := 1
    { s with
      cur_generation := cur_generation
      alltime_max_score := max s.alltime_max_score stats.raw_max
      alltime_min_score := min s.alltime_min_score stats.raw_min
      on_performance :=
        (s.on_performance * ((cur_generation - 1 : ℕ) : ℚ) + stats.raw_avg)
          / (cur_generation : ℚ)
      off_max_performance :=
        (s.off_max_performance * ((cur_generation - 1 : ℕ) : ℚ) + stats.raw_max)
          / (cur_generation : ℚ)
      off_min_performance :=
        (s.off_min_performance * ((cur_generation - 1 : ℕ) : ℚ) + stats.raw_min)
          / (cur_generation : ℚ)
      alltime_best_pop := some r.2
      hist_stats := s.hist_stats ++ [stats] }

/-- `GAStatistics::update`: per-generation bookkeeping, then the archive
merge, then archive this generation's stats snapshot. -/
def GAStatistics.update (s : GAStatistics) (pop : GAPopulation) : GAStatistics :=
  let r := pop.statistics'
  match r.1 with
  | none => s
  | some stats =>
    let cur_generation := s.cur_generation + 1
    let s1 :=
      { s with
        cur_generation := cur_generation
        alltime_max_score := max s.alltime_max_score stats.raw_max
        alltime_min_score := min s.alltime_min_score stats.raw_min
        on_performance :=
          (s.on_performance * ((cur_generation - 1 : ℕ) : ℚ) + stats.raw_avg)
            / (cur_generation : ℚ)
        off_max_performance :=
          (s.off_max_performance * ((cur_generation - 1 : ℕ) : ℚ) + stats.raw_max)
            / (cur_generation : ℚ)
        off_min_performance :=
          (s.off_min_performance * ((cur_generation - 1 : ℕ) : ℚ) + stats.raw_min)
            / (cur_generation : ℚ) }
    let s2 := s1.update_best r.2
    { s2 with hist_stats := s2.hist_stats ++ [stats] }

/-! ## Basic facts about freshly sorted populations -/

/-- A freshly constructed and sorted population: both orderings are the
`sortIdx` permutations and both flags are set. -/
theorem sort_new (inds : List GAIndividual) (order : GAPopulationSortOrder) :
    (GAPopulation.new inds order).sort =
      { population := inds
        sort_order := order
        population_order_raw := sortIdx inds (fun ind => ind.raw) order
        is_raw_sorted := true
        population_order_fitness := sortIdx inds (fun ind => ind.fitness) order
        is_fitness_sorted := true
        statistics := none } :=
  rfl

theorem map_range_getD {α β : Type*} (xs : List α) (d : α) (f : α → β) :
    (List.range xs.length).map (fun i => f (xs.getD i d)) = xs.map f := by
  induction xs with
  | nil => rfl
  | cons x xs ih =>
    rw [List.length_cons, List.range_succ_eq_map, List.map_cons, List.map_map]
    have hcomp : ((fun i => f ((x :: xs).getD i d)) ∘ Nat.succ)
        = (fun i => f (xs.getD i d)) := rfl
    rw [hcomp, ih]
    rfl

theorem sortIdx_perm_range (l : List GAIndividual) (key : GAIndividual → ℚ)
    (ord : GAPopulationSortOrder) : (sortIdx l key ord).Perm (List.range l.length) := by
  cases ord <;> exact List.perm_insertionSort _ _

theorem sortIdx_length (l : List GAIndividual) (key : GAIndividual → ℚ)
    (ord : GAPopulationSortOrder) : (sortIdx l key ord).length = l.length := by
  rw [(sortIdx_perm_range l key ord).length_eq, List.length_range]

theorem sortIdx_sorted_low (l : List GAIndividual) (key : GAIndividual → ℚ) :
    List.Sorted (fun i j => key (l.getD i default) ≤ key (l.getD j default))
      (sortIdx l key .LowIsBest) := by
  haveI : IsTotal ℕ (fun i j => key (l.getD i default) ≤ key (l.getD j default)) :=
    ⟨fun a b => le_total _ _⟩
  haveI : IsTrans ℕ (fun i j => key (l.getD i default) ≤ key (l.getD j default)) :=
    ⟨fun a b c hab hbc => le_trans hab hbc⟩
  exact List.sorted_insertionSort _ _

theorem sortIdx_sorted_high (l : List GAIndividual) (key : GAIndividual → ℚ) :
    List.Sorted (fun i j => key (l.getD j default) ≤ key (l.getD i default))
      (sortIdx l key .HighIsBest) := by
  haveI : IsTotal ℕ (fun i j => key (l.getD j default) ≤ key (l.getD i default)) :=
    ⟨fun a b => le_total _ _⟩
  haveI : IsTrans ℕ (fun i j => key (l.getD j default) ≤ key (l.getD i default)) :=
    ⟨fun a b c hab hbc => le_trans hbc hab⟩
  exact List.sorted_insertionSort _ _

/-- The ranked sequence denoted by the raw iterator of a freshly sorted
population: the raw-order permutation mapped through the backing list. -/
theorem rawScoreList_eq (inds : List GAIndividual) (order : GAPopulationSortOrder) :
    ((GAPopulation.new inds order).sort).rawScoreList
      = (sortIdx inds (fun ind => ind.raw) order).map (fun idx => inds.getD idx default) := by
  have h : ((GAPopulation.new inds order).sort).rawScoreList
      = (List.range (sortIdx inds (fun ind => ind.raw) order).length).map
          (fun i => inds.getD ((sortIdx inds (fun ind => ind.raw) order).getD i 0) default) := by
    rw [sortIdx_length]
    rfl
  rw [h]
  exact map_range_getD (sortIdx inds (fun ind => ind.raw) order) 0
    (fun idx => inds.getD idx default)

theorem fitnessScoreList_eq (inds : List GAIndividual) (order : GAPopulationSortOrder) :
    ((GAPopulation.new inds order).sort).fitnessScoreList
      = (sortIdx inds (fun ind => ind.fitness) order).map (fun idx => inds.getD idx default) := by
  have h : ((GAPopulation.new inds order).sort).fitnessScoreList
      = (List.range (sortIdx inds (fun ind => ind.fitness) order).length).map
          (fun i => inds.getD ((sortIdx inds (fun ind => ind.fitness) order).getD i 0) default) := by
    rw [sortIdx_length]
    rfl
  rw [h]
  exact map_range_getD (sortIdx inds (fun ind => ind.fitness) order) 0
    (fun idx => inds.getD idx default)

theorem sortIdx_map_getD_perm (inds : List GAIndividual) (key : GAIndividual → ℚ)
    (order : GAPopulationSortOrder) :
    ((sortIdx inds key order).map (fun idx => inds.getD idx default)).Perm inds := by
  refine ((sortIdx_perm_range inds key order).map _).trans ?_
  have h := map_range_getD inds default (id : GAIndividual → GAIndividual)
  rw [List.map_id] at h
  exact List.Perm.of_eq h

/-- Key values along a `sortIdx` ordering, `LowIsBest`: non-decreasing. -/
theorem sortIdx_keys_sorted_low (inds : List GAIndividual) (key : GAIndividual → ℚ) :
    List.Sorted (· ≤ ·)
      (((sortIdx inds key .LowIsBest).map (fun idx => inds.getD idx default)).map key) := by
  rw [List.map_map]
  exact (sortIdx_sorted_low inds key).map _ (fun a b h => h)

/-- Key values along a `sortIdx` ordering, `HighIsBest`: non-increasing. -/
theorem sortIdx_keys_sorted_high (inds : List GAIndividual) (key : GAIndividual → ℚ) :
    List.Sorted (· ≥ ·)
      (((sortIdx inds key .HighIsBest).map (fun idx => inds.getD idx default)).map key) := by
  rw [List.map_map]
  exact (sortIdx_sorted_high inds key).map _ (fun a b h => h)

/-- In a `Pairwise R` list with `R` reflexive, every element is related to
the last element. -/
theorem pairwise_getElem_last {R : ℚ → ℚ → Prop} (hrefl : ∀ a, R a a) (L : List ℚ)
    (h : List.Pairwise R L) (i : ℕ) (hi : i < L.length) :
    R (L.getD i 0) (L.getD (L.length - 1) 0) := by
  rcases lt_or_le i (L.length - 1) with hlt | hge
  · rw [List.getD_eq_getElem L 0 hi, List.getD_eq_getElem L 0 (by omega)]
    exact (List.pairwise_iff_getElem.mp h) i (L.length - 1) hi (by omega) hlt
  · have : i = L.length - 1 := by omega
    subst this
    exact hrefl _

/-- C6 — Sorting invariant: after `sort()`, the raw iterator yields raw
scores that are non-decreasing under `LowIsBest` and non-increasing under
`HighIsBest`, and the fitness iterator does the same for fitness scores,
for any input scores. -/
theorem sorted_population_iterators (inds : List GAIndividual)
    (order : GAPopulationSortOrder) (hne : inds ≠ []) :
    List.Sorted
        (match order with
         | .LowIsBest => ((· ≤ ·) : ℚ → ℚ → Prop)
         | .HighIsBest => ((· ≥ ·) : ℚ → ℚ → Prop))
        ((((GAPopulation.new inds order).sort).rawScoreList).map (fun ind => ind.raw))
      ∧ List.Sorted
        (match order with
         | .LowIsBest => ((· ≤ ·) : ℚ → ℚ → Prop)
         | .HighIsBest => ((· ≥ ·) : ℚ → ℚ → Prop))
        ((((GAPopulation.new inds order).sort).fitnessScoreList).map (fun ind => ind.fitness)) := by
  rw [rawScoreList_eq, fitnessScoreList_eq]
  cases order
  · exact ⟨sortIdx_keys_sorted_low inds _, sortIdx_keys_sorted_low inds _⟩
  · exact ⟨sortIdx_keys_sorted_high inds _, sortIdx_keys_sorted_high inds _⟩

/-- Witness for the sorting invariant at a concrete population. -/
theorem sorted_population_iterators_witness :
    ([(⟨3, 1/3⟩ : GAIndividual), ⟨1, 1⟩, ⟨2, 1/2⟩] ≠ []) ∧
    (List.Sorted
        (match GAPopulationSortOrder.LowIsBest with
         | .LowIsBest => ((· ≤ ·) : ℚ → ℚ → Prop)
         | .HighIsBest => ((· ≥ ·) : ℚ → ℚ → Prop))
        ((((GAPopulation.new [⟨3, 1/3⟩, ⟨1, 1⟩, ⟨2, 1/2⟩] .LowIsBest).sort).rawScoreList).map
          (fun ind => ind.raw))
      ∧ List.Sorted
        (match GAPopulationSortOrder.LowIsBest with
         | .LowIsBest => ((· ≤ ·) : ℚ → ℚ → Prop)
         | .HighIsBest => ((· ≥ ·) : ℚ → ℚ → Prop))
        ((((GAPopulation.new [⟨3, 1/3⟩, ⟨1, 1⟩, ⟨2, 1/2⟩] .LowIsBest).sort).fitnessScoreList).map
          (fun ind => ind.fitness))) :=
  ⟨by decide, sorted_population_iterators [⟨3, 1/3⟩, ⟨1, 1⟩, ⟨2, 1/2⟩] .LowIsBest (by decide)⟩

theorem getD_map_lt {α β : Type*} (f : α → β) (l : List α) (i : ℕ) (hi : i < l.length)
    (d : β) (d' : α) : (l.map f).getD i d = f (l.getD i d') := by
  rw [List.getD_eq_getElem _ _ (by simpa using hi), List.getD_eq_getElem _ _ hi,
    List.getElem_map]

theorem map_getD_last {α β : Type*} (f : α → β) (l : List α) (hne : l.length ≠ 0)
    (d : β) (d' : α) :
    (l.map f).getD ((l.map f).length - 1) d = f (l.getD (l.length - 1) d') := by
  rw [List.length_map]
  exact getD_map_lt f l (l.length - 1) (by omega) d d'

/-- In a freshly sorted `LowIsBest` population, every individual's fitness
is at most the fitness of `worst()` (the last fitness-ranked slot). -/
theorem worst_fitness_extreme_low (inds : List GAIndividual) (hne : inds ≠ [])
    (x : GAIndividual) (hx : x ∈ inds) :
    x.fitness ≤ ((GAPopulation.new inds .LowIsBest).sort).worst.fitness := by
  have hlenS : (sortIdx inds (fun ind => ind.fitness) .LowIsBest).length = inds.length :=
    sortIdx_length inds _ _
  have hlen0 : inds.length ≠ 0 := fun h => hne (List.length_eq_zero.mp h)
  have hxm : x ∈ (sortIdx inds (fun ind => ind.fitness) .LowIsBest).map
      (fun idx => inds.getD idx default) :=
    ((sortIdx_map_getD_perm inds (fun ind => ind.fitness) .LowIsBest).mem_iff).mpr hx
  obtain ⟨i, hi, hxi⟩ := List.mem_iff_getElem.mp hxm
  have hsorted := sortIdx_keys_sorted_low inds (fun ind => ind.fitness)
  have hlast := pairwise_getElem_last (R := (· ≤ ·)) (fun a => le_refl a) _ hsorted i
    (by simpa using hi)
  have h1 : (((sortIdx inds (fun ind => ind.fitness) .LowIsBest).map
      (fun idx => inds.getD idx default)).map (fun ind => ind.fitness)).getD i 0
      = x.fitness := by
    rw [getD_map_lt (fun ind => ind.fitness) _ i hi 0 default,
      List.getD_eq_getElem _ _ hi, hxi]
  rw [h1] at hlast
  rw [map_getD_last (fun ind : GAIndividual => ind.fitness)
      ((sortIdx inds (fun ind => ind.fitness) .LowIsBest).map
        (fun idx => inds.getD idx default))
      (by rw [List.length_map, hlenS]; omega) 0 default,
    map_getD_last (fun idx => inds.getD idx default)
      (sortIdx inds (fun ind => ind.fitness) .LowIsBest)
      (by rw [hlenS]; omega) default 0,
    hlenS] at hlast
  exact hlast

/-- In a freshly sorted `HighIsBest` population, every individual's fitness
is at least the fitness of `worst()`. -/
theorem worst_fitness_extreme_high (inds : List GAIndividual) (hne : inds ≠ [])
    (x : GAIndividual) (hx : x ∈ inds) :
    ((GAPopulation.new inds .HighIsBest).sort).worst.fitness ≤ x.fitness := by
  have hlenS : (sortIdx inds (fun ind => ind.fitness) .HighIsBest).length = inds.length :=
    sortIdx_length inds _ _
  have hlen0 : inds.length ≠ 0 := fun h => hne (List.length_eq_zero.mp h)
  have hxm : x ∈ (sortIdx inds (fun ind => ind.fitness) .HighIsBest).map
      (fun idx => inds.getD idx default) :=
    ((sortIdx_map_getD_perm inds (fun ind => ind.fitness) .HighIsBest).mem_iff).mpr hx
  obtain ⟨i, hi, hxi⟩ := List.mem_iff_getElem.mp hxm
  have hsorted := sortIdx_keys_sorted_high inds (fun ind => ind.fitness)
  have hlast := pairwise_getElem_last (R := (· ≥ ·)) (fun a => le_refl a) _ hsorted i
    (by simpa using hi)
  have h1 : (((sortIdx inds (fun ind => ind.fitness) .HighIsBest).map
      (fun idx => inds.getD idx default)).map (fun ind => ind.fitness)).getD i 0
      = x.fitness := by
    rw [getD_map_lt (fun ind => ind.fitness) _ i hi 0 default,
      List.getD_eq_getElem _ _ hi, hxi]
  rw [h1] at hlast
  rw [map_getD_last (fun ind : GAIndividual => ind.fitness)
      ((sortIdx inds (fun ind => ind.fitness) .HighIsBest).map
        (fun idx => inds.getD idx default))
      (by rw [List.length_map, hlenS]; omega) 0 default,
    map_getD_last (fun idx => inds.getD idx default)
      (sortIdx inds (fun ind => ind.fitness) .HighIsBest)
      (by rw [hlenS]; omega) default 0,
    hlenS] at hlast
  exact hlast

/-- `swap_individual` when the candidate is strictly better per
`sort_order`: the worst-by-fitness slot is overwritten and both sorted
flags are invalidated. -/
theorem swap_individual_of_better (pop : GAPopulation) (cand : GAIndividual)
    (hb : (pop.sort_order = .LowIsBest ∧ cand.fitness < pop.worst.fitness)
        ∨ (pop.sort_order = .HighIsBest ∧ pop.worst.fitness < cand.fitness)) :
    pop.swap_individual cand =
      { pop with
        population :=
          pop.population.set
            (pop.population_order_fitness.getD (pop.population.length - 1) 0) cand
        is_raw_sorted := false
        is_fitness_sorted := false } := by
  unfold GAPopulation.swap_individual
  rcases hb with ⟨h1, h2⟩ | ⟨h1, h2⟩ <;> rw [h1] <;> simp only [decide_eq_true h2] <;> rfl

/-- `swap_individual` when the candidate is not strictly better (equal
fitness included): the population is returned completely unchanged. -/
theorem swap_individual_of_not_better (pop : GAPopulation) (cand : GAIndividual)
    (hb : ¬ ((pop.sort_order = .LowIsBest ∧ cand.fitness < pop.worst.fitness)
        ∨ (pop.sort_order = .HighIsBest ∧ pop.worst.fitness < cand.fitness))) :
    pop.swap_individual cand = pop := by
  unfold GAPopulation.swap_individual
  push_neg at hb
  obtain ⟨hlow, hhigh⟩ := hb
  cases horder : pop.sort_order with
  | LowIsBest =>
    have hnot : ¬ (cand.fitness < pop.worst.fitness) := not_lt.mpr (hlow horder)
    simp only [decide_eq_false hnot]
    rfl
  | HighIsBest =>
    have hnot : ¬ (pop.worst.fitness < cand.fitness) := not_lt.mpr (hhigh horder)
    simp only [decide_eq_false hnot]
    rfl

/-- C4 — `swap_individual(candidate)` on a fitness-sorted non-empty
population: the slot addressed for replacement holds the population's
worst-by-fitness individual, which has extreme fitness per `sort_order`;
when the candidate's fitness is strictly better per `sort_order` the
population becomes the old one with exactly that slot replaced and both
sorted flags invalidated; otherwise (equal fitness included) the
population is left completely unchanged. -/
theorem swap_individual_spec (inds : List GAIndividual) (order : GAPopulationSortOrder)
    (cand : GAIndividual) (hne : inds ≠ []) :
    let pop := (GAPopulation.new inds order).sort
    let idx := pop.population_order_fitness.getD (pop.size - 1) 0
    let worst := pop.worst
    let better : Prop :=
      (order = .LowIsBest ∧ cand.fitness < worst.fitness)
        ∨ (order = .HighIsBest ∧ worst.fitness < cand.fitness)
    (pop.population.getD idx default = worst) ∧
    (order = .LowIsBest → ∀ x ∈ pop.population, x.fitness ≤ worst.fitness) ∧
    (order = .HighIsBest → ∀ x ∈ pop.population, worst.fitness ≤ x.fitness) ∧
    (better →
       pop.swap_individual cand =
         { pop with
           population := pop.population.set idx cand
           is_raw_sorted := false
           is_fitness_sorted := false }) ∧
    (¬better → pop.swap_individual cand = pop) := by
  intro pop idx worst better
  refine ⟨rfl, ?_, ?_, ?_, ?_⟩
  · intro ho x hx
    subst ho
    exact worst_fitness_extreme_low inds hne x hx
  · intro ho x hx
    subst ho
    exact worst_fitness_extreme_high inds hne x hx
  · intro hb
    exact swap_individual_of_better pop cand hb
  · intro hb
    exact swap_individual_of_not_better pop cand hb

/-- Witness for the `swap_individual` contract at a concrete population. -/
theorem swap_individual_spec_witness :
    ([(⟨1, 10⟩ : GAIndividual), ⟨2, 20⟩] ≠ []) ∧
    (let pop := (GAPopulation.new [(⟨1, 10⟩ : GAIndividual), ⟨2, 20⟩] .HighIsBest).sort
     let idx := pop.population_order_fitness.getD (pop.size - 1) 0
     let worst := pop.worst
     let better : Prop :=
       (GAPopulationSortOrder.HighIsBest = .LowIsBest ∧ (⟨3, 30⟩ : GAIndividual).fitness < worst.fitness)
         ∨ (GAPopulationSortOrder.HighIsBest = .HighIsBest ∧ worst.fitness < (⟨3, 30⟩ : GAIndividual).fitness)
     (pop.population.getD idx default = worst) ∧
     (GAPopulationSortOrder.HighIsBest = .LowIsBest → ∀ x ∈ pop.population, x.fitness ≤ worst.fitness) ∧
     (GAPopulationSortOrder.HighIsBest = .HighIsBest → ∀ x ∈ pop.population, worst.fitness ≤ x.fitness) ∧
     (better →
        pop.swap_individual ⟨3, 30⟩ =
          { pop with
            population := pop.population.set idx ⟨3, 30⟩
            is_raw_sorted := false
            is_fitness_sorted := false }) ∧
     (¬better → pop.swap_individual ⟨3, 30⟩ = pop)) :=
  ⟨by decide, swap_individual_spec [⟨1, 10⟩, ⟨2, 20⟩] .HighIsBest ⟨3, 30⟩ (by decide)⟩

/-- C8 — Frame effect of the mixed-sign fall-through: when the population
size matches the wheel size and the (sorted) view-scores are mixed-sign
with `max_score ≠ min_score`, `GARouletteWheelSelector::update` writes no
wheel: `wheel_proportions` is left exactly as it was (stale). -/
theorem roulette_update_mixed_sign_stale (v : GAScoreTypeBasedSelection)
    (w : List ℚ) (inds : List GAIndividual) (order : GAPopulationSortOrder)
    (hsize : (GAPopulation.new inds order).size = w.length)
    (hneq : v.max_score ((GAPopulation.new inds order).sort)
        ≠ v.min_score ((GAPopulation.new inds order).sort))
    (hmixed : ¬ ((v.max_score ((GAPopulation.new inds order).sort) > 0
          ∧ v.min_score ((GAPopulation.new inds order).sort) ≥ 0)
        ∨ (v.max_score ((GAPopulation.new inds order).sort) ≤ 0
          ∧ v.min_score ((GAPopulation.new inds order).sort) < 0))) :
    (GARouletteWheelSelector.update ⟨v, w⟩ (GAPopulation.new inds order)).1.wheel_proportions
      = w := by
  unfold GARouletteWheelSelector.update
  rw [if_neg (not_not_intro hsize), if_neg hneq, if_neg hmixed]

/-- Witness for the stale-wheel frame effect at a concrete mixed-sign
population. -/
theorem roulette_update_mixed_sign_stale_witness :
    ((GAPopulation.new [(⟨-1, 1⟩ : GAIndividual), ⟨1, 2⟩] .HighIsBest).size
        = [(3 : ℚ)/10, 7/10].length) ∧
    (GAScoreTypeBasedSelection.Raw.max_score
        ((GAPopulation.new [(⟨-1, 1⟩ : GAIndividual), ⟨1, 2⟩] .HighIsBest).sort)
      ≠ GAScoreTypeBasedSelection.Raw.min_score
        ((GAPopulation.new [(⟨-1, 1⟩ : GAIndividual), ⟨1, 2⟩] .HighIsBest).sort)) ∧
    ((GARouletteWheelSelector.update ⟨.Raw, [(3 : ℚ)/10, 7/10]⟩
        (GAPopulation.new [(⟨-1, 1⟩ : GAIndividual), ⟨1, 2⟩] .HighIsBest)).1.wheel_proportions
      = [(3 : ℚ)/10, 7/10]) :=
  ⟨by with_unfolding_all decide, by with_unfolding_all decide,
    roulette_update_mixed_sign_stale .Raw [(3 : ℚ)/10, 7/10] [⟨-1, 1⟩, ⟨1, 2⟩] .HighIsBest
      (by with_unfolding_all decide) (by with_unfolding_all decide)
      (by with_unfolding_all decide)⟩

/-- C2 (counterexample) — In a `LowIsBest` tournament whose two roulette
draws have equal view-scores but are distinct individuals, `select` returns
the second draw, not the first. -/
theorem tournament_tie_second_draw :
    let r := (GATournamentSelector.new .Raw 2).update
      (GAPopulation.new [⟨1, 5⟩, ⟨1, 7⟩] .LowIsBest)
    let i1 := r.1.roulette_wheel_selector.select r.2 0
    let i2 := r.1.roulette_wheel_selector.select r.2 (6/10)
    r.1.score_selection.score i1 = r.1.score_selection.score i2 ∧
    i1 = ⟨1, 5⟩ ∧ i2 = ⟨1, 7⟩ ∧ i1 ≠ i2 ∧
    r.1.select r.2 0 (6/10) = i2 := by
  with_unfolding_all decide

/-- Closed-form characterization of `GATournamentSelector::select`. -/
theorem tournament_select_eq (sel : GATournamentSelector)
    (population : GAPopulation) (c1 c2 : ℚ) :
    sel.select population c1 c2 =
      (match population.order with
       | .HighIsBest =>
         if sel.score_selection.score (sel.roulette_wheel_selector.select population c1)
             ≥ sel.score_selection.score (sel.roulette_wheel_selector.select population c2)
         then sel.roulette_wheel_selector.select population c1
         else sel.roulette_wheel_selector.select population c2
       | .LowIsBest =>
         if sel.score_selection.score (sel.roulette_wheel_selector.select population c1)
             ≥ sel.score_selection.score (sel.roulette_wheel_selector.select population c2)
         then sel.roulette_wheel_selector.select population c2
         else sel.roulette_wheel_selector.select population c1) := by
  unfold GATournamentSelector.select
  by_cases h : sel.score_selection.score (sel.roulette_wheel_selector.select population c1)
      ≥ sel.score_selection.score (sel.roulette_wheel_selector.select population c2) <;>
    cases population.order <;> simp [h]

/-- C2 (amended) — `GATournamentSelector::select` draws two individuals via
the inner roulette wheel and returns the better-scoring one per the
population's `sort_order`; on a score tie it returns the first draw under
`HighIsBest` and the second draw under `LowIsBest`. -/
theorem tournament_select_spec (sel : GATournamentSelector)
    (population : GAPopulation) (c1 c2 : ℚ) :
    (sel.select population c1 c2 = sel.roulette_wheel_selector.select population c1
      ∨ sel.select population c1 c2 = sel.roulette_wheel_selector.select population c2) ∧
    (population.order = .HighIsBest →
      sel.score_selection.score (sel.select population c1 c2)
        = max (sel.score_selection.score (sel.roulette_wheel_selector.select population c1))
            (sel.score_selection.score (sel.roulette_wheel_selector.select population c2)) ∧
      (sel.score_selection.score (sel.roulette_wheel_selector.select population c1)
          = sel.score_selection.score (sel.roulette_wheel_selector.select population c2) →
        sel.select population c1 c2 = sel.roulette_wheel_selector.select population c1)) ∧
    (population.order = .LowIsBest →
      sel.score_selection.score (sel.select population c1 c2)
        = min (sel.score_selection.score (sel.roulette_wheel_selector.select population c1))
            (sel.score_selection.score (sel.roulette_wheel_selector.select population c2)) ∧
      (sel.score_selection.score (sel.roulette_wheel_selector.select population c1)
          = sel.score_selection.score (sel.roulette_wheel_selector.select population c2) →
        sel.select population c1 c2 = sel.roulette_wheel_selector.select population c2)) := by
  have hsel := tournament_select_eq sel population c1 c2
  by_cases h : sel.score_selection.score (sel.roulette_wheel_selector.select population c1)
      ≥ sel.score_selection.score (sel.roulette_wheel_selector.select population c2)
  · cases horder : population.order with
    | LowIsBest =>
      rw [horder] at hsel
      dsimp only at hsel
      rw [if_pos h] at hsel
      exact ⟨Or.inr hsel,
        fun hh => absurd hh (by decide),
        fun _ => ⟨by rw [hsel]; exact (min_eq_right h).symm, fun _ => hsel⟩⟩
    | HighIsBest =>
      rw [horder] at hsel
      dsimp only at hsel
      rw [if_pos h] at hsel
      exact ⟨Or.inl hsel,
        fun _ => ⟨by rw [hsel]; exact (max_eq_left h).symm, fun _ => hsel⟩,
        fun hh => absurd hh (by decide)⟩
  · have hlt := lt_of_not_ge h
    cases horder : population.order with
    | LowIsBest =>
      rw [horder] at hsel
      dsimp only at hsel
      rw [if_neg h] at hsel
      exact ⟨Or.inl hsel,
        fun hh => absurd hh (by decide),
        fun _ => ⟨by rw [hsel]; exact (min_eq_left hlt.le).symm,
          fun heq => absurd heq (ne_of_lt hlt)⟩⟩
    | HighIsBest =>
      rw [horder] at hsel
      dsimp only at hsel
      rw [if_neg h] at hsel
      exact ⟨Or.inr hsel,
        fun _ => ⟨by rw [hsel]; exact (max_eq_right hlt.le).symm,
          fun heq => absurd heq (ne_of_lt hlt)⟩,
        fun hh => absurd hh (by decide)⟩

/-- Witness for the tournament selection contract at a concrete
population. -/
theorem tournament_select_spec_witness :
    (let r := (GATournamentSelector.new .Raw 2).update
      (GAPopulation.new [⟨1, 5⟩, ⟨1, 7⟩] .LowIsBest)
    (r.1.select r.2 0 (6/10) = r.1.roulette_wheel_selector.select r.2 0
      ∨ r.1.select r.2 0 (6/10) = r.1.roulette_wheel_selector.select r.2 (6/10)) ∧
    (r.2.order = .HighIsBest →
      r.1.score_selection.score (r.1.select r.2 0 (6/10))
        = max (r.1.score_selection.score (r.1.roulette_wheel_selector.select r.2 0))
            (r.1.score_selection.score (r.1.roulette_wheel_selector.select r.2 (6/10))) ∧
      (r.1.score_selection.score (r.1.roulette_wheel_selector.select r.2 0)
          = r.1.score_selection.score (r.1.roulette_wheel_selector.select r.2 (6/10)) →
        r.1.select r.2 0 (6/10) = r.1.roulette_wheel_selector.select r.2 0)) ∧
    (r.2.order = .LowIsBest →
      r.1.score_selection.score (r.1.select r.2 0 (6/10))
        = min (r.1.score_selection.score (r.1.roulette_wheel_selector.select r.2 0))
            (r.1.score_selection.score (r.1.roulette_wheel_selector.select r.2 (6/10))) ∧
      (r.1.score_selection.score (r.1.roulette_wheel_selector.select r.2 0)
          = r.1.score_selection.score (r.1.roulette_wheel_selector.select r.2 (6/10)) →
        r.1.select r.2 0 (6/10) = r.1.roulette_wheel_selector.select r.2 (6/10)))) :=
  tournament_select_spec
    ((GATournamentSelector.new .Raw 2).update
      (GAPopulation.new [⟨1, 5⟩, ⟨1, 7⟩] .LowIsBest)).1
    ((GATournamentSelector.new .Raw 2).update
      (GAPopulation.new [⟨1, 5⟩, ⟨1, 7⟩] .LowIsBest)).2
    0 (6/10)

/-- The `best_count` walk only stops at ranks whose view-score differs from
`best_score`: every rank from the start up to (excluding) the stop has
view-score equal to `best_score`. -/
theorem rankBestCountAux_all_best (v : GAScoreTypeBasedSelection)
    (population : GAPopulation) (best_score : ℚ) :
    ∀ (fuel i j : ℕ), i ≤ j → j < rankBestCountAux v population best_score fuel i →
      v.score (population.individual j v.population_sort_basis) = best_score := by
  intro fuel
  induction fuel with
  | zero =>
    intro i j hij hlt
    simp only [rankBestCountAux] at hlt
    omega
  | succ fuel ih =>
    intro i j hij hlt
    simp only [rankBestCountAux] at hlt
    split at hlt
    · rename_i hcond
      rcases Nat.eq_or_lt_of_le hij with heq | hstrict
      · subst heq
        exact hcond.2
      · exact ih (i + 1) j hstrict hlt
    · omega

/-- `max_score` is definitionally the view-score of the rank-0 individual
under the view's basis. -/
theorem max_score_eq_rank_zero (v : GAScoreTypeBasedSelection) (pop : GAPopulation) :
    v.max_score pop = v.score (pop.individual 0 v.population_sort_basis) := by
  cases v <;> rfl

/-- C9 — Rank selection: for every non-empty sorted population and every
random draw satisfying the `gen_range` contract (result in
`[0, best_count)`), the individual returned by `GARankSelector::select` has
view-score equal to `max_score` of the population under the configured
view. -/
theorem rank_select_spec (v : GAScoreTypeBasedSelection) (inds : List GAIndividual)
    (order : GAPopulationSortOrder) (genRange : ℕ → ℕ → ℕ) (hne : inds ≠ [])
    (hrng : genRange 0
        (rankBestCount v ((GAPopulation.new inds order).sort)
          (v.max_score ((GAPopulation.new inds order).sort)) 1)
      < rankBestCount v ((GAPopulation.new inds order).sort)
          (v.max_score ((GAPopulation.new inds order).sort)) 1) :
    v.score (GARankSelector.select v ((GAPopulation.new inds order).sort) genRange)
      = v.max_score ((GAPopulation.new inds order).sort) := by
  unfold GARankSelector.select
  dsimp only
  rcases Nat.eq_zero_or_pos (genRange 0
      (rankBestCount v ((GAPopulation.new inds order).sort)
        (v.max_score ((GAPopulation.new inds order).sort)) 1)) with h0 | hpos
  · rw [h0, max_score_eq_rank_zero]
  · exact rankBestCountAux_all_best v ((GAPopulation.new inds order).sort)
      (v.max_score ((GAPopulation.new inds order).sort))
      (((GAPopulation.new inds order).sort).size - 1) 1 _ hpos hrng

/-- Witness for rank selection: a `HighIsBest` population with a two-way
tie at the top and a draw hitting the second-ranked individual. -/
theorem rank_select_spec_witness :
    ([(⟨2, 1/2⟩ : GAIndividual), ⟨2, 99⟩, ⟨1, 1⟩] ≠ []) ∧
    ((fun _ n => n - 1) 0
        (rankBestCount .Raw ((GAPopulation.new [(⟨2, 1/2⟩ : GAIndividual), ⟨2, 99⟩, ⟨1, 1⟩] .HighIsBest).sort)
          (GAScoreTypeBasedSelection.Raw.max_score
            ((GAPopulation.new [(⟨2, 1/2⟩ : GAIndividual), ⟨2, 99⟩, ⟨1, 1⟩] .HighIsBest).sort)) 1)
      < rankBestCount .Raw ((GAPopulation.new [(⟨2, 1/2⟩ : GAIndividual), ⟨2, 99⟩, ⟨1, 1⟩] .HighIsBest).sort)
          (GAScoreTypeBasedSelection.Raw.max_score
            ((GAPopulation.new [(⟨2, 1/2⟩ : GAIndividual), ⟨2, 99⟩, ⟨1, 1⟩] .HighIsBest).sort)) 1) ∧
    (GAScoreTypeBasedSelection.Raw.score
        (GARankSelector.select .Raw
          ((GAPopulation.new [(⟨2, 1/2⟩ : GAIndividual), ⟨2, 99⟩, ⟨1, 1⟩] .HighIsBest).sort)
          (fun _ n => n - 1))
      = GAScoreTypeBasedSelection.Raw.max_score
          ((GAPopulation.new [(⟨2, 1/2⟩ : GAIndividual), ⟨2, 99⟩, ⟨1, 1⟩] .HighIsBest).sort)) :=
  ⟨by decide, by with_unfolding_all decide,
    rank_select_spec .Raw [⟨2, 1/2⟩, ⟨2, 99⟩, ⟨1, 1⟩] .HighIsBest (fun _ n => n - 1)
      (by decide) (by with_unfolding_all decide)⟩

/-! ## Statistics: the computation matches direct formulas -/

theorem statsPass1_foldl (l : List GAIndividual) (acc : StatsAcc) :
    l.foldl
      (fun stats ind =>
        { raw_sum := stats.raw_sum + ind.raw
          raw_max := max stats.raw_max (ind.raw : WithBot ℚ)
          raw_min := min stats.raw_min (ind.raw : WithTop ℚ)
          fitness_sum := stats.fitness_sum + ind.fitness
          fitness_max := max stats.fitness_max (ind.fitness : WithBot ℚ)
          fitness_min := min stats.fitness_min (ind.fitness : WithTop ℚ) }) acc
      = { raw_sum := acc.raw_sum + (l.map (fun ind => ind.raw)).sum
          raw_max := max acc.raw_max (l.map (fun ind => ind.raw)).maximum
          raw_min := min acc.raw_min (l.map (fun ind => ind.raw)).minimum
          fitness_sum := acc.fitness_sum + (l.map (fun ind => ind.fitness)).sum
          fitness_max := max acc.fitness_max (l.map (fun ind => ind.fitness)).maximum
          fitness_min := min acc.fitness_min (l.map (fun ind => ind.fitness)).minimum } := by
  induction l generalizing acc with
  | nil =>
    cases acc with
    | mk a b c d e f =>
      simp only [List.foldl_nil, List.map_nil, List.sum_nil, List.maximum_nil,
        List.minimum_nil, add_zero]
      rw [max_eq_left bot_le, min_eq_left le_top, max_eq_left bot_le, min_eq_left le_top]
  | cons x l ih =>
    rw [List.foldl_cons, ih]
    simp only [List.map_cons, List.sum_cons, List.maximum_cons, List.minimum_cons]
    congr 1 <;> dsimp only
    · exact add_assoc _ _ _
    · exact sup_assoc _ _ _
    · exact inf_assoc _ _ _
    · exact add_assoc _ _ _
    · exact sup_assoc _ _ _
    · exact inf_assoc _ _ _

theorem foldl_add_eq_sum (f : GAIndividual → ℚ) (l : List GAIndividual) (a : ℚ) :
    l.foldl (fun v ind => v + f ind) a = a + (l.map f).sum := by
  induction l generalizing a with
  | nil => simp
  | cons x l ih => simp [ih, add_assoc]

/-- The direct-computation description of the population statistics (the
spec side of the refinement claim about `statistics()`): sums, averages
`sum/n`, extrema, and variance with divisor `n-1` for `n>1` and `0`
otherwise. -/
def statisticsDirect (l : List GAIndividual) (st : GAPopulationStats) : Prop :=
  st.raw_sum = (l.map (fun ind => ind.raw)).sum ∧
  st.raw_avg = (l.map (fun ind => ind.raw)).sum / (l.length : ℚ) ∧
  (st.raw_max : WithBot ℚ) = (l.map (fun ind => ind.raw)).maximum ∧
  (st.raw_min : WithTop ℚ) = (l.map (fun ind => ind.raw)).minimum ∧
  st.raw_var =
    (if 1 < l.length then
      (l.map (fun ind =>
          (ind.raw - (l.map (fun j => j.raw)).sum / (l.length : ℚ)) ^ 2)).sum
        / ((l.length : ℚ) - 1)
    else 0) ∧
  st.fitness_sum = (l.map (fun ind => ind.fitness)).sum ∧
  st.fitness_avg = (l.map (fun ind => ind.fitness)).sum / (l.length : ℚ) ∧
  (st.fitness_max : WithBot ℚ) = (l.map (fun ind => ind.fitness)).maximum ∧
  (st.fitness_min : WithTop ℚ) = (l.map (fun ind => ind.fitness)).minimum ∧
  st.fitness_var =
    (if 1 < l.length then
      (l.map (fun ind =>
          (ind.fitness - (l.map (fun j => j.fitness)).sum / (l.length : ℚ)) ^ 2)).sum
        / ((l.length : ℚ) - 1)
    else 0)

theorem coe_unbot'_of_ne_bot {x : WithBot ℚ} (h : x ≠ ⊥) : ((x.unbot' 0 : ℚ) : WithBot ℚ) = x := by
  cases x with
  | bot => exact absurd rfl h
  | coe q => rfl

theorem coe_untop'_of_ne_top {x : WithTop ℚ} (h : x ≠ ⊤) : ((x.untop' 0 : ℚ) : WithTop ℚ) = x := by
  cases x with
  | top => exact absurd rfl h
  | coe q => rfl

/-- `statisticsCompute` on a non-empty population matches the direct
formulas. -/
theorem statisticsCompute_spec (l : List GAIndividual) (hne : l ≠ []) :
    statisticsDirect l (statisticsCompute l) := by
  have hmapr : l.map (fun ind => ind.raw) ≠ [] := by
    simpa [List.map_eq_nil_iff] using hne
  have hmapf : l.map (fun ind => ind.fitness) ≠ [] := by
    simpa [List.map_eq_nil_iff] using hne
  have hlen : 1 ≤ l.length := by
    cases l with
    | nil => exact absurd rfl hne
    | cons x xs => simp
  have hp1 := statsPass1_foldl l ⟨0, ⊥, ⊤, 0, ⊥, ⊤⟩
  have hpass : statsPass1 l =
      { raw_sum := (l.map (fun ind => ind.raw)).sum
        raw_max := (l.map (fun ind => ind.raw)).maximum
        raw_min := (l.map (fun ind => ind.raw)).minimum
        fitness_sum := (l.map (fun ind => ind.fitness)).sum
        fitness_max := (l.map (fun ind => ind.fitness)).maximum
        fitness_min := (l.map (fun ind => ind.fitness)).minimum } := by
    unfold statsPass1
    rw [hp1]
    congr 1 <;> simp [max_eq_right bot_le, min_eq_right le_top]
  have hcast : ((l.length - 1 : ℕ) : ℚ) = (l.length : ℚ) - 1 := by
    push_cast [hlen]
    ring
  unfold statisticsCompute
  rw [hpass]
  refine ⟨by simp, by simp, ?_, ?_, ?_, by simp, by simp, ?_, ?_, ?_⟩
  · exact coe_unbot'_of_ne_bot (List.maximum_ne_bot_of_ne_nil hmapr)
  · exact coe_untop'_of_ne_top (List.minimum_ne_top_of_ne_nil hmapr)
  · dsimp only
    split
    · rw [foldl_add_eq_sum, zero_add, hcast]
    · rfl
  · exact coe_unbot'_of_ne_bot (List.maximum_ne_bot_of_ne_nil hmapf)
  · exact coe_untop'_of_ne_top (List.minimum_ne_top_of_ne_nil hmapf)
  · dsimp only
    split
    · rw [foldl_add_eq_sum, zero_add, hcast]
    · rfl

/-- Memo consistency: either the statistics have not been computed yet, or
the memo holds exactly the computed statistics of the (non-empty) backing
collection.  Every population reachable through the API satisfies this. -/
def StatsConsistent (pop : GAPopulation) : Prop :=
  pop.statistics = none
    ∨ (pop.population ≠ [] ∧ pop.statistics = some (statisticsCompute pop.population))

/-- C5 — `statistics()` returns absent exactly when the population is
empty; otherwise each returned axis matches the direct computation (sum,
average `sum/n`, max, min, variance with divisor `n-1` for `n>1` else `0`),
and for a single-individual population the variance is `0` and hence the
standard deviation `sqrt(var)` is `0`. -/
theorem statistics_spec (pop : GAPopulation) (hcons : StatsConsistent pop) :
    ((pop.statistics').1 = none ↔ pop.population = []) ∧
    (∀ st, (pop.statistics').1 = some st →
      statisticsDirect pop.population st ∧
      (pop.population.length = 1 →
        st.raw_var = 0 ∧ st.fitness_var = 0 ∧
        Real.sqrt (st.raw_var : ℝ) = 0 ∧ Real.sqrt (st.fitness_var : ℝ) = 0)) := by
  have honevar : ∀ st, statisticsDirect pop.population st → pop.population.length = 1 →
      st.raw_var = 0 ∧ st.fitness_var = 0 ∧
      Real.sqrt (st.raw_var : ℝ) = 0 ∧ Real.sqrt (st.fitness_var : ℝ) = 0 := by
    intro st hd h1
    obtain ⟨-, -, -, -, hrv, -, -, -, -, hfv⟩ := hd
    rw [h1] at hrv hfv
    norm_num at hrv hfv
    refine ⟨hrv, hfv, ?_, ?_⟩
    · rw [hrv]
      push_cast
      exact Real.sqrt_zero
    · rw [hfv]
      push_cast
      exact Real.sqrt_zero
  rcases hcons with hnone | ⟨hne, hsome⟩
  · unfold GAPopulation.statistics'
    rw [hnone]
    by_cases hsz : pop.size = 0
    · rw [if_pos hsz]
      have : pop.population = [] := List.length_eq_zero.mp hsz
      simp [this]
    · rw [if_neg hsz]
      have hne : pop.population ≠ [] := by
        intro h
        exact hsz (by simp [GAPopulation.size, h])
      constructor
      · simp [hne]
      · intro st hst
        have : st = statisticsCompute pop.population := by
          simpa using hst.symm
        subst this
        have hd := statisticsCompute_spec pop.population hne
        exact ⟨hd, honevar _ hd⟩
  · unfold GAPopulation.statistics'
    rw [hsome]
    constructor
    · simp [hne]
    · intro st hst
      have : st = statisticsCompute pop.population := by
        simpa using hst.symm
      subst this
      have hd := statisticsCompute_spec pop.population hne
      exact ⟨hd, honevar _ hd⟩

/-- Witness for the statistics contract at a one-individual population
(hits the `var = 0`, `std_dev = 0` case). -/
theorem statistics_spec_witness :
    StatsConsistent (GAPopulation.new [⟨5, 1/5⟩] .HighIsBest) ∧
    ((((GAPopulation.new [⟨5, 1/5⟩] .HighIsBest).statistics').1 = none
        ↔ (GAPopulation.new [⟨5, 1/5⟩] .HighIsBest).population = []) ∧
      (∀ st, (((GAPopulation.new [⟨5, 1/5⟩] .HighIsBest).statistics').1 = some st) →
        statisticsDirect (GAPopulation.new [⟨5, 1/5⟩] .HighIsBest).population st ∧
        ((GAPopulation.new [⟨5, 1/5⟩] .HighIsBest).population.length = 1 →
          st.raw_var = 0 ∧ st.fitness_var = 0 ∧
          Real.sqrt (st.raw_var : ℝ) = 0 ∧ Real.sqrt (st.fitness_var : ℝ) = 0))) :=
  ⟨Or.inl rfl, statistics_spec (GAPopulation.new [⟨5, 1/5⟩] .HighIsBest) (Or.inl rfl)⟩

/-! ## The archive scenario and the all-time score bookkeeping -/

/-- `GATestIndividual::new` (`ga_test.rs`): fitness is the inverse of the
raw score. -/
def GATestIndividual.new (rs : ℚ) : GAIndividual :=
  ⟨rs, 1 / rs⟩

/-- A population prepared the way the statistics tests build one: created
from a score list, sorted, statistics memoized. -/
def testPopulation (scores : List ℚ) (order : GAPopulationSortOrder) : GAPopulation :=
  ((GAPopulation.new (scores.map GATestIndividual.new) order).sort).statistics'.2

/-- The archive's raw scores from best to worst. -/
def archiveRawScores (s : GAStatistics) : List ℚ :=
  match s.alltime_best_pop with
  | some p => p.rawScoreList.map (fun ind => ind.raw)
  | none => []

/-- C1 — Archive merge, concrete scenario: seeding with the raw scores
`[-10,-8,-6,-4,-2,0.1,2,4,6,8,10]` and merging
`[-9,-7,-5,-3,-1,1,3,5,7,9,11]` yields raw scores
`[11,10,9,8,7,6,5,4,3,2,1]` under `HighIsBest` and
`[-10,-9,-8,-7,-6,-5,-4,-3,-2,-1,0.1]` under `LowIsBest`. -/
theorem archive_merge_scenario :
    archiveRawScores
        ((GAStatistics.new.set_best
            (testPopulation [-10, -8, -6, -4, -2, 0.1, 2, 4, 6, 8, 10] .HighIsBest)).update_best
          (testPopulation [-9, -7, -5, -3, -1, 1, 3, 5, 7, 9, 11] .HighIsBest))
      = [11, 10, 9, 8, 7, 6, 5, 4, 3, 2, 1] ∧
    archiveRawScores
        ((GAStatistics.new.set_best
            (testPopulation [-10, -8, -6, -4, -2, 0.1, 2, 4, 6, 8, 10] .LowIsBest)).update_best
          (testPopulation [-9, -7, -5, -3, -1, 1, 3, 5, 7, 9, 11] .LowIsBest))
      = [-10, -9, -8, -7, -6, -5, -4, -3, -2, -1, 0.1] := by
  with_unfolding_all decide

/-- A sequence of generations handed to the tracker. -/
def runUpdates (s : GAStatistics) (pops : List GAPopulation) : GAStatistics :=
  pops.foldl GAStatistics.update s

/-- The generation raw maxima the tracker observes (one per population
whose `statistics()` is present). -/
def observedRawMax (pops : List GAPopulation) : List ℚ :=
  pops.filterMap (fun p => (p.statistics'.1).map (fun st => st.raw_max))

/-- The generation raw minima the tracker observes. -/
def observedRawMin (pops : List GAPopulation) : List ℚ :=
  pops.filterMap (fun p => (p.statistics'.1).map (fun st => st.raw_min))

theorem update_best_alltime_max (s : GAStatistics) (pop : GAPopulation) :
    (s.update_best pop).alltime_max_score = s.alltime_max_score := by
  unfold GAStatistics.update_best
  cases s.alltime_best_pop with
  | none => rfl
  | some bp =>
    dsimp only
    split <;> rfl

theorem update_best_alltime_min (s : GAStatistics) (pop : GAPopulation) :
    (s.update_best pop).alltime_min_score = s.alltime_min_score := by
  unfold GAStatistics.update_best
  cases s.alltime_best_pop with
  | none => rfl
  | some bp =>
    dsimp only
    split <;> rfl

theorem update_alltime_max (s : GAStatistics) (pop : GAPopulation) :
    (s.update pop).alltime_max_score =
      match (pop.statistics').1 with
      | none => s.alltime_max_score
      | some st => max s.alltime_max_score st.raw_max := by
  unfold GAStatistics.update
  dsimp only
  cases h : (pop.statistics').1 with
  | none => rfl
  | some st =>
    dsimp only
    rw [update_best_alltime_max]

theorem update_alltime_min (s : GAStatistics) (pop : GAPopulation) :
    (s.update pop).alltime_min_score =
      match (pop.statistics').1 with
      | none => s.alltime_min_score
      | some st => min s.alltime_min_score st.raw_min := by
  unfold GAStatistics.update
  dsimp only
  cases h : (pop.statistics').1 with
  | none => rfl
  | some st =>
    dsimp only
    rw [update_best_alltime_min]

theorem set_best_alltime_max (s : GAStatistics) (pop : GAPopulation) :
    (s.set_best pop).alltime_max_score =
      match (pop.statistics').1 with
      | none => s.alltime_max_score
      | some st => max s.alltime_max_score st.raw_max := by
  unfold GAStatistics.set_best
  dsimp only
  cases h : (pop.statistics').1 with
  | none => rfl
  | some st => rfl

theorem set_best_alltime_min (s : GAStatistics) (pop : GAPopulation) :
    (s.set_best pop).alltime_min_score =
      match (pop.statistics').1 with
      | none => s.alltime_min_score
      | some st => min s.alltime_min_score st.raw_min := by
  unfold GAStatistics.set_best
  dsimp only
  cases h : (pop.statistics').1 with
  | none => rfl
  | some st => rfl

theorem runUpdates_alltime_max (pops : List GAPopulation) : ∀ (s : GAStatistics),
    (runUpdates s pops).alltime_max_score
      = List.foldl max s.alltime_max_score (observedRawMax pops) := by
  induction pops with
  | nil => intro s; rfl
  | cons p pops ih =>
    intro s
    show (runUpdates (s.update p) pops).alltime_max_score = _
    rw [ih, update_alltime_max]
    cases h : (p.statistics').1 with
    | none => simp [observedRawMax, List.filterMap_cons, h]
    | some st => simp [observedRawMax, List.filterMap_cons, h]

theorem runUpdates_alltime_min (pops : List GAPopulation) : ∀ (s : GAStatistics),
    (runUpdates s pops).alltime_min_score
      = List.foldl min s.alltime_min_score (observedRawMin pops) := by
  induction pops with
  | nil => intro s; rfl
  | cons p pops ih =>
    intro s
    show (runUpdates (s.update p) pops).alltime_min_score = _
    rw [ih, update_alltime_min]
    cases h : (p.statistics').1 with
    | none => simp [observedRawMin, List.filterMap_cons, h]
    | some st => simp [observedRawMin, List.filterMap_cons, h]

theorem foldl_max_zero_of_nonpos (L : List ℚ) (h : ∀ q ∈ L, q < 0) :
    List.foldl max 0 L = 0 := by
  induction L with
  | nil => rfl
  | cons x L ih =>
    rw [List.foldl_cons, max_eq_left (le_of_lt (h x (by simp)))]
    exact ih (fun q hq => h q (by simp [hq]))

/-- C10 — The tracker initializes `alltime_max_score`/`alltime_min_score`
to `0.0` (not `∓∞`), so after `set_best` and any sequence of `update`s the
all-time max equals the maximum of `0` and all observed generation raw
maxima, and the all-time min equals the minimum of `0` and all observed
generation raw minima; in particular, when every observed generation raw
maximum is negative the all-time max stays `0.0`, a score never observed.
-/
theorem alltime_scores_track_zero (popA : GAPopulation) (pops : List GAPopulation) :
    (runUpdates (GAStatistics.new.set_best popA) pops).alltime_max_score
        = List.foldl max 0 (observedRawMax (popA :: pops)) ∧
    (runUpdates (GAStatistics.new.set_best popA) pops).alltime_min_score
        = List.foldl min 0 (observedRawMin (popA :: pops)) ∧
    ((∀ q ∈ observedRawMax (popA :: pops), q < 0) →
      (runUpdates (GAStatistics.new.set_best popA) pops).alltime_max_score = 0) := by
  have hmax : (runUpdates (GAStatistics.new.set_best popA) pops).alltime_max_score
      = List.foldl max 0 (observedRawMax (popA :: pops)) := by
    rw [runUpdates_alltime_max, set_best_alltime_max]
    cases h : (popA.statistics').1 with
    | none => simp [observedRawMax, List.filterMap_cons, h, GAStatistics.new]
    | some st => simp [observedRawMax, List.filterMap_cons, h, GAStatistics.new]
  refine ⟨hmax, ?_, ?_⟩
  · rw [runUpdates_alltime_min, set_best_alltime_min]
    cases h : (popA.statistics').1 with
    | none => simp [observedRawMin, List.filterMap_cons, h, GAStatistics.new]
    | some st => simp [observedRawMin, List.filterMap_cons, h, GAStatistics.new]
  · intro hneg
    rw [hmax]
    exact foldl_max_zero_of_nonpos _ hneg

/-- Witness for the all-time score bookkeeping: one all-negative
generation leaves `alltime_max_score = 0`. -/
theorem alltime_scores_track_zero_witness :
    ((runUpdates (GAStatistics.new.set_best (testPopulation [-5] .HighIsBest)) []).alltime_max_score
        = List.foldl max 0 (observedRawMax [testPopulation [-5] .HighIsBest]) ∧
      (runUpdates (GAStatistics.new.set_best (testPopulation [-5] .HighIsBest)) []).alltime_min_score
        = List.foldl min 0 (observedRawMin [testPopulation [-5] .HighIsBest]) ∧
      ((∀ q ∈ observedRawMax [testPopulation [-5] .HighIsBest], q < 0) →
        (runUpdates (GAStatistics.new.set_best (testPopulation [-5] .HighIsBest)) []).alltime_max_score
          = 0)) ∧
    (∀ q ∈ observedRawMax [testPopulation [-5] .HighIsBest], q < 0) ∧
    (runUpdates (GAStatistics.new.set_best (testPopulation [-5] .HighIsBest)) []).alltime_max_score
      = 0 :=
  ⟨alltime_scores_track_zero (testPopulation [-5] .HighIsBest) [],
    by with_unfolding_all decide,
    (alltime_scores_track_zero (testPopulation [-5] .HighIsBest) []).2.2
      (by with_unfolding_all decide)⟩

/-! ## Archive merge: size invariance and worst-score monotonicity -/

/-- "The worst is not worse" per order: under `HighIsBest` the multiset
minimum of the raw scores does not decrease; under `LowIsBest` the multiset
maximum does not increase. -/
def worstNoWorse (o : GAPopulationSortOrder) (before after : List GAIndividual) : Prop :=
  match o with
  | .HighIsBest =>
    (before.map (fun i => i.raw)).minimum ≤ (after.map (fun i => i.raw)).minimum
  | .LowIsBest =>
    (after.map (fun i => i.raw)).maximum ≤ (before.map (fun i => i.raw)).maximum

/-- One merge step may only keep the archive multiset or improve one slot:
length is preserved and the worst raw score is not worse. -/
def ArchiveStep (o : GAPopulationSortOrder) (before after : List GAIndividual) : Prop :=
  after.length = before.length ∧ worstNoWorse o before after

theorem ArchiveStep.rfl (o : GAPopulationSortOrder) (l : List GAIndividual) :
    ArchiveStep o l l :=
  ⟨Eq.refl _, by cases o <;> exact le_refl _⟩

theorem ArchiveStep.trans {o : GAPopulationSortOrder} {a b c : List GAIndividual}
    (h1 : ArchiveStep o a b) (h2 : ArchiveStep o b c) : ArchiveStep o a c := by
  obtain ⟨hl1, hw1⟩ := h1
  obtain ⟨hl2, hw2⟩ := h2
  refine ⟨hl2.trans hl1, ?_⟩
  cases o with
  | HighIsBest => exact le_trans hw1 hw2
  | LowIsBest => exact le_trans hw2 hw1

theorem cmpRaw_gt_high {a b : ℚ} (h : cmpRaw .HighIsBest a b = .gt) : b < a :=
  compare_gt_iff_gt.mp h

theorem cmpRaw_gt_low {a b : ℚ} (h : cmpRaw .LowIsBest a b = .gt) : a < b := by
  unfold cmpRaw at h
  cases hc : compare a b <;> rw [hc] at h
  · exact compare_lt_iff_lt.mp hc
  · cases h
  · cases h

theorem cmpRaw_gt_of_lt_low {a b : ℚ} (h : a < b) : cmpRaw .LowIsBest a b = .gt := by
  unfold cmpRaw
  rw [compare_lt_iff_lt.mpr h]

theorem cmpRaw_gt_of_gt_high {a b : ℚ} (h : b < a) : cmpRaw .HighIsBest a b = .gt :=
  compare_gt_iff_gt.mpr h

/-- Replacing slot `i` by a strictly better individual (per order) is an
`ArchiveStep`. -/
theorem archiveStep_set (o : GAPopulationSortOrder) (l : List GAIndividual) (i : ℕ)
    (c : GAIndividual) (hc : cmpRaw o c.raw ((l.getD i default).raw) = .gt) :
    ArchiveStep o l (l.set i c) := by
  refine ⟨List.length_set l i c, ?_⟩
  rcases lt_or_le i l.length with hi | hi
  swap
  · rw [List.set_eq_of_length_le hi]
    cases o <;> exact le_refl _
  have hmem : l.getD i default ∈ l := by
    rw [List.getD_eq_getElem l default hi]
    exact List.getElem_mem hi
  cases o with
  | HighIsBest =>
    have hlt : (l.getD i default).raw < c.raw := cmpRaw_gt_high hc
    refine List.le_minimum_of_forall_le ?_
    intro a ha
    obtain ⟨x, hx, hxa⟩ := List.mem_map.mp ha
    rcases List.mem_or_eq_of_mem_set hx with hxl | hxc
    · exact List.minimum_le_of_mem' (List.mem_map.mpr ⟨x, hxl, hxa⟩)
    · subst hxc
      calc (l.map (fun i => i.raw)).minimum
          ≤ ((l.getD i default).raw : WithTop ℚ) :=
            List.minimum_le_of_mem' (List.mem_map.mpr ⟨_, hmem, Eq.refl _⟩)
        _ ≤ (a : WithTop ℚ) := by
            rw [← hxa]
            exact_mod_cast le_of_lt hlt
  | LowIsBest =>
    have hlt : c.raw < (l.getD i default).raw := cmpRaw_gt_low hc
    refine List.maximum_le_of_forall_le ?_
    intro a ha
    obtain ⟨x, hx, hxa⟩ := List.mem_map.mp ha
    rcases List.mem_or_eq_of_mem_set hx with hxl | hxc
    · exact List.le_maximum_of_mem' (List.mem_map.mpr ⟨x, hxl, hxa⟩)
    · subst hxc
      calc (a : WithBot ℚ)
          ≤ ((l.getD i default).raw : WithBot ℚ) := by
            rw [← hxa]
            exact_mod_cast le_of_lt hlt
        _ ≤ (l.map (fun i => i.raw)).maximum :=
            List.le_maximum_of_mem' (List.mem_map.mpr ⟨_, hmem, Eq.refl _⟩)

/-! Population-preservation framing lemmas. -/

theorem population_sort_int (pop : GAPopulation) (f : Bool) (b : GAPopulationSortBasis) :
    (pop.sort_int f b).population = pop.population := by
  cases b <;> unfold GAPopulation.sort_int <;> dsimp only <;> split <;> rfl

theorem population_sort (pop : GAPopulation) : pop.sort.population = pop.population := by
  unfold GAPopulation.sort
  rw [population_sort_int, population_sort_int]

theorem population_force_sort (pop : GAPopulation) :
    pop.force_sort.population = pop.population := by
  unfold GAPopulation.force_sort
  rw [population_sort_int, population_sort_int]

theorem population_set_order_and_sort (pop : GAPopulation) (o : GAPopulationSortOrder) :
    (pop.set_order_and_sort o).population = pop.population := by
  unfold GAPopulation.set_order_and_sort
  split
  · rw [population_sort]
  · rfl

theorem population_reset_statistics (pop : GAPopulation) :
    pop.reset_statistics.population = pop.population :=
  Eq.refl _

theorem population_statistics_snd (pop : GAPopulation) :
    (pop.statistics').2.population = pop.population := by
  unfold GAPopulation.statistics'
  cases pop.statistics with
  | some s => rfl
  | none =>
    dsimp only
    split <;> rfl

theorem sort_order_sort_int (pop : GAPopulation) (f : Bool) (b : GAPopulationSortBasis) :
    (pop.sort_int f b).sort_order = pop.sort_order := by
  cases b <;> unfold GAPopulation.sort_int <;> dsimp only <;> split <;> rfl

theorem sort_order_sort (pop : GAPopulation) : pop.sort.sort_order = pop.sort_order := by
  unfold GAPopulation.sort
  rw [sort_order_sort_int, sort_order_sort_int]

/-- After the possible re-sort at the top of `update_best`, the archive's
order equals the incoming population's order. -/
theorem order_after_reorder (A pop : GAPopulation) :
    (if pop.order ≠ A.order then A.set_order_and_sort pop.order else A).order
      = pop.order := by
  split
  · unfold GAPopulation.set_order_and_sort
    split
    · show (GAPopulation.sort _).sort_order = _
      rw [sort_order_sort]
    · rename_i h1 h2
      exact not_ne_iff.mp h2
  · rename_i h
    push_neg at h
    exact h.symm

/-- The inner `j` scan performs (at most) one `ArchiveStep` relative to the
archive it was entered with, provided the candidate beats the archive's
current worst (the outer loop's condition). -/
theorem updateBestInnerAux_step (o : GAPopulationSortOrder) (cand : GAIndividual)
    (bp : GAPopulation) (n : ℕ)
    (hcand : cmpRaw o cand.raw bp.worst_by_raw_score.raw = .gt) :
    ∀ (fuel j : ℕ),
      ArchiveStep o bp.population ((updateBestInnerAux o cand bp n fuel j).population) := by
  intro fuel
  induction fuel with
  | zero => intro j; exact ArchiveStep.rfl o bp.population
  | succ fuel ih =>
    intro j
    unfold updateBestInnerAux
    dsimp only
    split
    · split
      · exact ArchiveStep.rfl o bp.population
      · split
        · rw [population_force_sort]
          exact archiveStep_set o bp.population
            (bp.population_order_raw.getD (bp.size - 1) 0) cand hcand
        · exact ih (j + 1)
    · exact ArchiveStep.rfl o bp.population

/-- The outer walk of `update_best` is a chain of `ArchiveStep`s. -/
theorem updateBestOuterAux_step (o : GAPopulationSortOrder) (pop : GAPopulation)
    (n m : ℕ) :
    ∀ (fuel : ℕ) (bp : GAPopulation) (i : ℕ),
      ArchiveStep o bp.population ((updateBestOuterAux o pop n m fuel bp i).population) := by
  intro fuel
  induction fuel with
  | zero => intro bp i; exact ArchiveStep.rfl o bp.population
  | succ fuel ih =>
    intro bp i
    unfold updateBestOuterAux
    dsimp only
    split
    · rename_i hcond
      exact ArchiveStep.trans
        (updateBestInnerAux_step o (pop.kth_best_by_raw_score i) bp n hcond.2 _ _)
        (ih _ (i + 1))
    · exact ArchiveStep.rfl o bp.population

/-- The whole replacement phase of `update_best` (1-element branch or the
two-level scan) is a chain of `ArchiveStep`s on the archive it enters
with. -/
theorem update_best_branch_step (pop A1 : GAPopulation) (n : ℕ) :
    ArchiveStep A1.order A1.population
      ((if n = 1 then
          (if (A1.order = .LowIsBest
                ∧ pop.best_by_raw_score.raw < A1.best_by_raw_score.raw)
              ∨ (A1.order = .HighIsBest
                ∧ pop.best_by_raw_score.raw > A1.best_by_raw_score.raw) then
            A1.setBestByRawScore pop.best_by_raw_score
          else A1)
        else updateBestOuter A1.order pop n pop.size A1 0).population) := by
  split
  · split
    · rename_i hcond
      refine archiveStep_set A1.order A1.population
        (A1.population_order_raw.getD 0 0) pop.best_by_raw_score ?_
      rcases hcond with ⟨ho, hlt⟩ | ⟨ho, hgt⟩
      · rw [ho]
        exact cmpRaw_gt_of_lt_low hlt
      · rw [ho]
        exact cmpRaw_gt_of_gt_high hgt
    · exact ArchiveStep.rfl A1.order A1.population
  · exact updateBestOuterAux_step A1.order pop n pop.size (pop.size - 0) A1 0

/-- C3 — Archive merge monotonicity and size invariance: if the tracker
holds a non-empty archive `A` (as after `set_best` on a non-empty
population), then after `update_best(pop)` the archive still has `A`'s
size, and the raw score of its worst-by-raw individual is not worse, per
the merge's current sort order (`pop.order`), than `A`'s worst was before
the merge. -/
theorem update_best_archive_spec (s : GAStatistics) (pop A : GAPopulation)
    (hA : s.alltime_best_pop = some A) (hne : A.population ≠ []) :
    ∃ A', (s.update_best pop).alltime_best_pop = some A' ∧
      A'.population.length = A.population.length ∧
      worstNoWorse pop.order A.population A'.population := by
  unfold GAStatistics.update_best
  rw [hA]
  dsimp only
  rw [if_pos (show 0 < A.size from List.length_pos.mpr hne)]
  refine ⟨_, Eq.refl _, ?_, ?_⟩ <;>
    · have hA1pop : (if pop.order ≠ A.order then A.set_order_and_sort pop.order
          else A).population = A.population := by
        split
        · exact population_set_order_and_sort A pop.order
        · rfl
      have hstep := update_best_branch_step pop
        (if pop.order ≠ A.order then A.set_order_and_sort pop.order else A) A.size
      rw [order_after_reorder A pop, hA1pop] at hstep
      obtain ⟨hlen, hworst⟩ := hstep
      rw [population_statistics_snd, population_reset_statistics,
        order_after_reorder A pop]
      first
        | exact hlen
        | exact hworst

/-- Witness for archive monotonicity at a concrete merge. -/
theorem update_best_archive_spec_witness :
    ((GAStatistics.new.set_best (testPopulation [1, 2, 3] .HighIsBest)).alltime_best_pop
        = some (testPopulation [1, 2, 3] .HighIsBest)) ∧
    ((testPopulation [1, 2, 3] .HighIsBest).population ≠ []) ∧
    (∃ A', ((GAStatistics.new.set_best (testPopulation [1, 2, 3] .HighIsBest)).update_best
          (testPopulation [2, 4, 6] .HighIsBest)).alltime_best_pop = some A' ∧
      A'.population.length = (testPopulation [1, 2, 3] .HighIsBest).population.length ∧
      worstNoWorse (testPopulation [2, 4, 6] .HighIsBest).order
        (testPopulation [1, 2, 3] .HighIsBest).population A'.population) :=
  ⟨by with_unfolding_all decide, by with_unfolding_all decide,
    update_best_archive_spec
      (GAStatistics.new.set_best (testPopulation [1, 2, 3] .HighIsBest))
      (testPopulation [2, 4, 6] .HighIsBest)
      (testPopulation [1, 2, 3] .HighIsBest)
      (by with_unfolding_all decide) (by with_unfolding_all decide)⟩

/-! ## Roulette wheel construction -/

/-- In a `Pairwise R` list with `R` reflexive, the first element is related
to every element. -/
theorem pairwise_getElem_first {R : ℚ → ℚ → Prop} (hrefl : ∀ a, R a a) (L : List ℚ)
    (h : List.Pairwise R L) (i : ℕ) (hi : i < L.length) :
    R (L.getD 0 0) (L.getD i 0) := by
  rcases Nat.eq_zero_or_pos i with h0 | hpos
  · subst h0
    exact hrefl _
  · rw [List.getD_eq_getElem L 0 (by omega), List.getD_eq_getElem L 0 hi]
    exact (List.pairwise_iff_getElem.mp h) 0 i (by omega) hi hpos

theorem list_sum_nonpos : ∀ (l : List ℚ), (∀ x ∈ l, x ≤ 0) → l.sum ≤ 0 := by
  intro l
  induction l with
  | nil => intro _; simp
  | cons x l ih =>
    intro h
    rw [List.sum_cons]
    have hx := h x (by simp)
    have hl := ih (fun y hy => h y (by simp [hy]))
    linarith

theorem list_sum_pos_of_mem (l : List ℚ) (hall : ∀ x ∈ l, 0 ≤ x) (a : ℚ)
    (ha : a ∈ l) (hpos : 0 < a) : 0 < l.sum := by
  induction l with
  | nil => cases ha
  | cons x l ih =>
    rw [List.sum_cons]
    rcases List.mem_cons.mp ha with rfl | hmem
    · have hl : 0 ≤ l.sum := List.sum_nonneg (fun y hy => hall y (by simp [hy]))
      linarith
    · have hx := hall x (by simp)
      have hl := ih (fun y hy => hall y (by simp [hy])) hmem
      linarith

theorem list_sum_neg_of_mem (l : List ℚ) (hall : ∀ x ∈ l, x ≤ 0) (a : ℚ)
    (ha : a ∈ l) (hneg : a < 0) : l.sum < 0 := by
  induction l with
  | nil => cases ha
  | cons x l ih =>
    rw [List.sum_cons]
    rcases List.mem_cons.mp ha with rfl | hmem
    · have hl : l.sum ≤ 0 := list_sum_nonpos l (fun y hy => hall y (by simp [hy]))
      linarith
    · have hx := hall x (by simp)
      have hl := ih (fun y hy => hall y (by simp [hy])) hmem
      linarith

theorem prefixSum_mono_of_nonneg (inc : ℕ → ℚ) (n : ℕ)
    (h : ∀ k, k < n → 0 ≤ inc k) :
    ∀ j, j < n → ∀ i, i ≤ j →
      ((List.range (i + 1)).map inc).sum ≤ ((List.range (j + 1)).map inc).sum := by
  intro j
  induction j with
  | zero =>
    intro _ i hi
    have : i = 0 := Nat.le_zero.mp hi
    subst this
    exact le_refl _
  | succ j ih =>
    intro hj i hij
    rcases Nat.eq_or_lt_of_le hij with rfl | hlt
    · exact le_refl _
    · have h1 : ((List.range (i + 1)).map inc).sum ≤ ((List.range (j + 1)).map inc).sum :=
        ih (by omega) i (by omega)
      have h2 : ((List.range (j + 1 + 1)).map inc).sum
          = ((List.range (j + 1)).map inc).sum + inc (j + 1) := by
        rw [List.range_succ, List.map_append, List.sum_append]
        simp
      rw [h2]
      have := h (j + 1) hj
      linarith

theorem prefixSum_anti_of_nonpos (inc : ℕ → ℚ) (n : ℕ)
    (h : ∀ k, k < n → inc k ≤ 0) :
    ∀ j, j < n → ∀ i, i ≤ j →
      ((List.range (j + 1)).map inc).sum ≤ ((List.range (i + 1)).map inc).sum := by
  intro j
  induction j with
  | zero =>
    intro _ i hi
    have : i = 0 := Nat.le_zero.mp hi
    subst this
    exact le_refl _
  | succ j ih =>
    intro hj i hij
    rcases Nat.eq_or_lt_of_le hij with rfl | hlt
    · exact le_refl _
    · have h1 : ((List.range (j + 1)).map inc).sum ≤ ((List.range (i + 1)).map inc).sum :=
        ih (by omega) i (by omega)
      have h2 : ((List.range (j + 1 + 1)).map inc).sum
          = ((List.range (j + 1)).map inc).sum + inc (j + 1) := by
        rw [List.range_succ, List.map_append, List.sum_append]
        simp
      rw [h2]
      have := h (j + 1) hj
      linarith

theorem getLast?_map_range (f : ℕ → ℚ) (n : ℕ) (h : n ≠ 0) :
    ((List.range n).map f).getLast? = some (f (n - 1)) := by
  rw [List.getLast?_eq_getElem?, List.length_map, List.length_range,
    List.getElem?_map, List.getElem?_range (by omega)]
  rfl

/-- A normalized prefix-sum wheel built from same-signed increments with a
strictly signed member: the slots are non-decreasing and the last slot is
exactly `1`. -/
theorem wheel_normalized_spec (inc : ℕ → ℚ) (n : ℕ) (hn : n ≠ 0)
    (hsign : ((∀ k, k < n → 0 ≤ inc k) ∧ ∃ k0, k0 < n ∧ 0 < inc k0)
      ∨ ((∀ k, k < n → inc k ≤ 0) ∧ ∃ k0, k0 < n ∧ inc k0 < 0)) :
    List.Sorted (· ≤ ·)
      ((List.range n).map (fun i =>
        ((List.range (i + 1)).map inc).sum / ((List.range n).map inc).sum)) ∧
    ((List.range n).map (fun i =>
        ((List.range (i + 1)).map inc).sum / ((List.range n).map inc).sum)).getLast?
      = some 1 := by
  have hmem : ∀ (k0 : ℕ), k0 < n → inc k0 ∈ (List.range n).map inc :=
    fun k0 hk0 => List.mem_map.mpr ⟨k0, List.mem_range.mpr hk0, Eq.refl _⟩
  have hall : ∀ x ∈ (List.range n).map inc,
      (∀ k, k < n → 0 ≤ inc k) → 0 ≤ x := by
    intro x hx h
    obtain ⟨k, hk, rfl⟩ := List.mem_map.mp hx
    exact h k (List.mem_range.mp hk)
  have hall' : ∀ x ∈ (List.range n).map inc,
      (∀ k, k < n → inc k ≤ 0) → x ≤ 0 := by
    intro x hx h
    obtain ⟨k, hk, rfl⟩ := List.mem_map.mp hx
    exact h k (List.mem_range.mp hk)
  have hlast : ((List.range n).map (fun i =>
      ((List.range (i + 1)).map inc).sum / ((List.range n).map inc).sum)).getLast?
        = some (((List.range n).map inc).sum / ((List.range n).map inc).sum) := by
    rw [getLast?_map_range _ n hn]
    have : n - 1 + 1 = n := by omega
    rw [this]
  rcases hsign with ⟨hnonneg, k0, hk0, hk0pos⟩ | ⟨hnonpos, k0, hk0, hk0neg⟩
  · have hT : 0 < ((List.range n).map inc).sum :=
      list_sum_pos_of_mem _ (fun x hx => hall x hx hnonneg) (inc k0) (hmem k0 hk0) hk0pos
    constructor
    · refine List.pairwise_iff_getElem.mpr ?_
      intro i j hi hj hij
      have hlen : j < n := by simpa using hj
      simp only [List.getElem_map, List.getElem_range]
      refine (div_le_div_iff_of_pos_right hT).mpr ?_
      exact prefixSum_mono_of_nonneg inc n hnonneg j hlen i (le_of_lt hij)
    · rw [hlast, div_self (ne_of_gt hT)]
  · have hT : ((List.range n).map inc).sum < 0 :=
      list_sum_neg_of_mem _ (fun x hx => hall' x hx hnonpos) (inc k0) (hmem k0 hk0) hk0neg
    constructor
    · refine List.pairwise_iff_getElem.mpr ?_
      intro i j hi hj hij
      have hlen : j < n := by simpa using hj
      simp only [List.getElem_map, List.getElem_range]
      refine (div_le_div_right_of_neg hT).mpr ?_
      exact prefixSum_anti_of_nonpos inc n hnonpos j hlen i (le_of_lt hij)
    · rw [hlast, div_self (ne_of_lt hT)]

theorem listResize_length (l : List ℚ) (n : ℕ) : (listResize l n).length = n := by
  simp only [listResize, List.length_append, List.length_take, List.length_replicate]
  omega

theorem wheelLen (w : List ℚ) (inds : List GAIndividual) (order : GAPopulationSortOrder) :
    (if (GAPopulation.new inds order).size ≠ w.length then
        listResize w (GAPopulation.new inds order).size
      else w).length = inds.length := by
  split
  · rw [listResize_length]
    rfl
  · rename_i h
    exact (not_ne_iff.mp h).symm

theorem order_sort_new (inds : List GAIndividual) (order : GAPopulationSortOrder) :
    ((GAPopulation.new inds order).sort).order = order :=
  Eq.refl _

/-- `update` in the `max = min` case: the uniform wheel. -/
theorem roulette_update_uniform (v : GAScoreTypeBasedSelection) (w : List ℚ)
    (inds : List GAIndividual) (order : GAPopulationSortOrder)
    (hMm : v.max_score ((GAPopulation.new inds order).sort)
        = v.min_score ((GAPopulation.new inds order).sort)) :
    (GARouletteWheelSelector.update ⟨v, w⟩ (GAPopulation.new inds order)).1.wheel_proportions
      = (List.range inds.length).map
          (fun i => ((i + 1 : ℕ) : ℚ) / (inds.length : ℚ)) := by
  unfold GARouletteWheelSelector.update
  dsimp only
  rw [if_pos hMm, wheelLen]

/-- `update` in the single-signed case: the normalized prefix-sum wheel
over the (possibly reflected) viewed scores. -/
theorem roulette_update_cumulative (v : GAScoreTypeBasedSelection) (w : List ℚ)
    (inds : List GAIndividual) (order : GAPopulationSortOrder)
    (hMm : v.max_score ((GAPopulation.new inds order).sort)
        ≠ v.min_score ((GAPopulation.new inds order).sort))
    (hguard : (v.max_score ((GAPopulation.new inds order).sort) > 0
        ∧ v.min_score ((GAPopulation.new inds order).sort) ≥ 0)
      ∨ (v.max_score ((GAPopulation.new inds order).sort) ≤ 0
        ∧ v.min_score ((GAPopulation.new inds order).sort) < 0)) :
    (GARouletteWheelSelector.update ⟨v, w⟩ (GAPopulation.new inds order)).1.wheel_proportions
      = (List.range inds.length).map
          (fun i =>
            ((List.range (i + 1)).map
              (match order with
               | .HighIsBest => fun i =>
                   v.score (((GAPopulation.new inds order).sort).individual i
                     v.population_sort_basis)
               | .LowIsBest => fun i =>
                   -(v.score (((GAPopulation.new inds order).sort).individual i
                       v.population_sort_basis))
                     + v.max_score ((GAPopulation.new inds order).sort)
                     + v.min_score ((GAPopulation.new inds order).sort))).sum
            / ((List.range inds.length).map
                (match order with
                 | .HighIsBest => fun i =>
                     v.score (((GAPopulation.new inds order).sort).individual i
                       v.population_sort_basis)
                 | .LowIsBest => fun i =>
                     -(v.score (((GAPopulation.new inds order).sort).individual i
                         v.population_sort_basis))
                       + v.max_score ((GAPopulation.new inds order).sort)
                       + v.min_score ((GAPopulation.new inds order).sort))).sum) := by
  unfold GARouletteWheelSelector.update
  dsimp only
  rw [if_neg hMm, if_pos hguard, wheelLen, order_sort_new]

theorem keyList_getD (inds : List GAIndividual) (key : GAIndividual → ℚ)
    (ord : GAPopulationSortOrder) (i : ℕ) (hi : i < inds.length) :
    (((sortIdx inds key ord).map (fun idx => inds.getD idx default)).map key).getD i 0
      = key (inds.getD ((sortIdx inds key ord).getD i 0) default) := by
  have hlenS : (sortIdx inds key ord).length = inds.length := sortIdx_length _ _ _
  rw [getD_map_lt key ((sortIdx inds key ord).map (fun idx => inds.getD idx default)) i
      (by rw [List.length_map, hlenS]; omega) 0 default,
    getD_map_lt (fun idx => inds.getD idx default) (sortIdx inds key ord) i
      (by rw [hlenS]; omega) default 0]

/-- In a `LowIsBest` `sortIdx` ordering, each ranked key value lies between
the rank-0 value and the last-rank value. -/
theorem sorted_key_bounds_low (inds : List GAIndividual) (key : GAIndividual → ℚ)
    (hne : inds ≠ []) (i : ℕ) (hi : i < inds.length) :
    key (inds.getD ((sortIdx inds key .LowIsBest).getD 0 0) default)
      ≤ key (inds.getD ((sortIdx inds key .LowIsBest).getD i 0) default) ∧
    key (inds.getD ((sortIdx inds key .LowIsBest).getD i 0) default)
      ≤ key (inds.getD ((sortIdx inds key .LowIsBest).getD (inds.length - 1) 0) default) := by
  have hlenS : (sortIdx inds key .LowIsBest).length = inds.length := sortIdx_length _ _ _
  have hlen0 : inds.length ≠ 0 := fun h => hne (List.length_eq_zero.mp h)
  have hs := sortIdx_keys_sorted_low inds key
  have hLlen : (((sortIdx inds key .LowIsBest).map (fun idx => inds.getD idx default)).map
      key).length = inds.length := by
    rw [List.length_map, List.length_map, hlenS]
  constructor
  · have h := pairwise_getElem_first (R := (· ≤ ·)) (fun a => le_refl a) _ hs i
      (by rw [hLlen]; omega)
    rw [keyList_getD inds key .LowIsBest 0 (by omega),
      keyList_getD inds key .LowIsBest i hi] at h
    exact h
  · have h := pairwise_getElem_last (R := (· ≤ ·)) (fun a => le_refl a) _ hs i
      (by rw [hLlen]; omega)
    rw [List.length_map, List.length_map, hlenS] at h
    rw [keyList_getD inds key .LowIsBest i hi,
      keyList_getD inds key .LowIsBest (inds.length - 1) (by omega)] at h
    exact h

/-- In a `HighIsBest` `sortIdx` ordering, each ranked key value lies
between the last-rank value and the rank-0 value. -/
theorem sorted_key_bounds_high (inds : List GAIndividual) (key : GAIndividual → ℚ)
    (hne : inds ≠ []) (i : ℕ) (hi : i < inds.length) :
    key (inds.getD ((sortIdx inds key .HighIsBest).getD i 0) default)
      ≤ key (inds.getD ((sortIdx inds key .HighIsBest).getD 0 0) default) ∧
    key (inds.getD ((sortIdx inds key .HighIsBest).getD (inds.length - 1) 0) default)
      ≤ key (inds.getD ((sortIdx inds key .HighIsBest).getD i 0) default) := by
  have hlenS : (sortIdx inds key .HighIsBest).length = inds.length := sortIdx_length _ _ _
  have hlen0 : inds.length ≠ 0 := fun h => hne (List.length_eq_zero.mp h)
  have hs := sortIdx_keys_sorted_high inds key
  have hLlen : (((sortIdx inds key .HighIsBest).map (fun idx => inds.getD idx default)).map
      key).length = inds.length := by
    rw [List.length_map, List.length_map, hlenS]
  constructor
  · have h := pairwise_getElem_first (R := (· ≥ ·)) (fun a => le_refl a) _ hs i
      (by rw [hLlen]; omega)
    rw [keyList_getD inds key .HighIsBest 0 (by omega),
      keyList_getD inds key .HighIsBest i hi] at h
    exact h
  · have h := pairwise_getElem_last (R := (· ≥ ·)) (fun a => le_refl a) _ hs i
      (by rw [hLlen]; omega)
    rw [List.length_map, List.length_map, hlenS] at h
    rw [keyList_getD inds key .HighIsBest i hi,
      keyList_getD inds key .HighIsBest (inds.length - 1) (by omega)] at h
    exact h

/-- View-level bounds in a sorted `HighIsBest` population: every ranked
view-score lies between `min_score` and `max_score`. -/
theorem view_bounds_high (v : GAScoreTypeBasedSelection) (inds : List GAIndividual)
    (hne : inds ≠ []) (k : ℕ) (hk : k < inds.length) :
    v.score (((GAPopulation.new inds .HighIsBest).sort).individual k
        v.population_sort_basis)
      ≤ v.max_score ((GAPopulation.new inds .HighIsBest).sort) ∧
    v.min_score ((GAPopulation.new inds .HighIsBest).sort)
      ≤ v.score (((GAPopulation.new inds .HighIsBest).sort).individual k
          v.population_sort_basis) := by
  cases v with
  | Raw => exact sorted_key_bounds_high inds (fun ind => ind.raw) hne k hk
  | Scaled => exact sorted_key_bounds_high inds (fun ind => ind.fitness) hne k hk

/-- View-level bounds in a sorted `LowIsBest` population: every ranked
view-score lies between `max_score` (the best, i.e. lowest) and
`min_score` (the worst, i.e. highest). -/
theorem view_bounds_low (v : GAScoreTypeBasedSelection) (inds : List GAIndividual)
    (hne : inds ≠ []) (k : ℕ) (hk : k < inds.length) :
    v.max_score ((GAPopulation.new inds .LowIsBest).sort)
      ≤ v.score (((GAPopulation.new inds .LowIsBest).sort).individual k
          v.population_sort_basis) ∧
    v.score (((GAPopulation.new inds .LowIsBest).sort).individual k
        v.population_sort_basis)
      ≤ v.min_score ((GAPopulation.new inds .LowIsBest).sort) := by
  cases v with
  | Raw => exact sorted_key_bounds_low inds (fun ind => ind.raw) hne k hk
  | Scaled => exact sorted_key_bounds_low inds (fun ind => ind.fitness) hne k hk

/-- C7 — `GARouletteWheelSelector::update` on a non-empty population: when
`max_score = min_score`, slot `i` holds `(i+1)/n`; when the scores are
single-signed with `max_score ≠ min_score`, the wheel is a normalized
cumulative sequence that is non-decreasing with last slot exactly `1`. -/
theorem roulette_update_wheel_spec (v : GAScoreTypeBasedSelection) (w : List ℚ)
    (inds : List GAIndividual) (order : GAPopulationSortOrder) (hne : inds ≠ []) :
    (v.max_score ((GAPopulation.new inds order).sort)
        = v.min_score ((GAPopulation.new inds order).sort) →
      (GARouletteWheelSelector.update ⟨v, w⟩ (GAPopulation.new inds order)).1.wheel_proportions
        = (List.range inds.length).map
            (fun i => ((i + 1 : ℕ) : ℚ) / (inds.length : ℚ))) ∧
    (v.max_score ((GAPopulation.new inds order).sort)
        ≠ v.min_score ((GAPopulation.new inds order).sort) →
      ((v.max_score ((GAPopulation.new inds order).sort) > 0
          ∧ v.min_score ((GAPopulation.new inds order).sort) ≥ 0)
        ∨ (v.max_score ((GAPopulation.new inds order).sort) ≤ 0
          ∧ v.min_score ((GAPopulation.new inds order).sort) < 0)) →
      List.Sorted (· ≤ ·)
        (GARouletteWheelSelector.update ⟨v, w⟩
          (GAPopulation.new inds order)).1.wheel_proportions ∧
      ((GARouletteWheelSelector.update ⟨v, w⟩
          (GAPopulation.new inds order)).1.wheel_proportions).getLast? = some 1) := by
  have hlen0 : inds.length ≠ 0 := fun h => hne (List.length_eq_zero.mp h)
  constructor
  · intro hMm
    exact roulette_update_uniform v w inds order hMm
  · intro hMm hguard
    rw [roulette_update_cumulative v w inds order hMm hguard]
    cases order with
    | HighIsBest =>
      dsimp only
      refine wheel_normalized_spec _ inds.length hlen0 ?_
      rcases hguard with ⟨hMpos, hmnn⟩ | ⟨hMnp, hmneg⟩
      · left
        refine ⟨fun k hk => ?_, 0, by omega, ?_⟩
        · have hb := (view_bounds_high v inds hne k hk).2
          linarith
        · have h0 : v.score (((GAPopulation.new inds .HighIsBest).sort).individual 0
              v.population_sort_basis)
              = v.max_score ((GAPopulation.new inds .HighIsBest).sort) := by
            cases v <;> rfl
          rw [h0]
          exact hMpos
      · right
        refine ⟨fun k hk => ?_, inds.length - 1, by omega, ?_⟩
        · have hb := (view_bounds_high v inds hne k hk).1
          linarith
        · have hl : v.score (((GAPopulation.new inds .HighIsBest).sort).individual
              (inds.length - 1) v.population_sort_basis)
              = v.min_score ((GAPopulation.new inds .HighIsBest).sort) := by
            cases v <;> rfl
          rw [hl]
          exact hmneg
    | LowIsBest =>
      dsimp only
      refine wheel_normalized_spec _ inds.length hlen0 ?_
      rcases hguard with ⟨hMpos, hmnn⟩ | ⟨hMnp, hmneg⟩
      · left
        refine ⟨fun k hk => ?_, inds.length - 1, by omega, ?_⟩
        · have hb := (view_bounds_low v inds hne k hk).2
          linarith
        · have hl : v.score (((GAPopulation.new inds .LowIsBest).sort).individual
              (inds.length - 1) v.population_sort_basis)
              = v.min_score ((GAPopulation.new inds .LowIsBest).sort) := by
            cases v <;> rfl
          rw [hl]
          linarith
      · right
        refine ⟨fun k hk => ?_, 0, by omega, ?_⟩
        · have hb := (view_bounds_low v inds hne k hk).1
          linarith
        · have h0 : v.score (((GAPopulation.new inds .LowIsBest).sort).individual 0
              v.population_sort_basis)
              = v.max_score ((GAPopulation.new inds .LowIsBest).sort) := by
            cases v <;> rfl
          rw [h0]
          linarith

/-- Witness for the roulette-wheel construction at concrete populations
(one equal-scores case and one single-signed case). -/
theorem roulette_update_wheel_spec_witness :
    ([(⟨1, 2⟩ : GAIndividual), ⟨3, 4⟩] ≠ []) ∧
    (GAScoreTypeBasedSelection.Raw.max_score
        ((GAPopulation.new [(⟨1, 2⟩ : GAIndividual), ⟨3, 4⟩] .HighIsBest).sort)
      ≠ GAScoreTypeBasedSelection.Raw.min_score
        ((GAPopulation.new [(⟨1, 2⟩ : GAIndividual), ⟨3, 4⟩] .HighIsBest).sort)) ∧
    (List.Sorted (· ≤ ·)
      (GARouletteWheelSelector.update ⟨.Raw, [0, 0]⟩
        (GAPopulation.new [(⟨1, 2⟩ : GAIndividual), ⟨3, 4⟩] .HighIsBest)).1.wheel_proportions ∧
    ((GARouletteWheelSelector.update ⟨.Raw, [0, 0]⟩
        (GAPopulation.new [(⟨1, 2⟩ : GAIndividual), ⟨3, 4⟩] .HighIsBest)).1.wheel_proportions).getLast?
      = some 1) :=
  ⟨by decide, by with_unfolding_all decide,
    (roulette_update_wheel_spec .Raw [0, 0] [⟨1, 2⟩, ⟨3, 4⟩] .HighIsBest (by decide)).2
      (by with_unfolding_all decide) (by with_unfolding_all decide)⟩

end RustMonster
